import Mathlib

/-!
SentinelView: the vessel-navigation simulator of `MapPanel.jsx`.

A shallow embedding of the simulation state and of the operations of
`src/components/MapPanel/MapPanel.jsx`.

* JavaScript numbers are idealised as elements of a linearly ordered field `K`
  with a floor function (no rounding, no NaN, no infinities).  The definitions
  are polymorphic in `K` and computable; the theorems are stated over `ℝ`.
* The functions of the JavaScript `Math` object that are not field operations
  (`sqrt`, `atan2`, `sin`, `cos`, `PI`) are passed in as a record `JSMath K`.
  Over `ℝ` they are instantiated by `realMath`.
* A position is the two-element array `[lat, lng]` of the source, embedded as a
  pair; a waypoint is the Leaflet object with fields `lat` and `lng`.
* Each React state variable of the component is a field of `SimState`.  The refs
  `positionRef` and `angleRef` are synchronised with `position` and `angle` after
  every render, so the interval callback reads the state fields themselves.
-/

namespace SentinelView

/-- The part of the JavaScript `Math` object used by the component. -/
structure JSMath (K : Type) where
  sqrt : K → K
  atan2 : K → K → K
  sin : K → K
  cos : K → K
  PI : K

/-- A Leaflet `latlng` object. -/
structure LatLng (K : Type) where
  lat : K
  lng : K
deriving DecidableEq, Repr

/-- The record stored by `setMissionStats`; the decimal strings produced by `toFixed` are
represented by the numbers they denote. -/
structure MissionStats (K : Type) where
  distance : K
  fuel : K
  duration : K
deriving DecidableEq, Repr

/-- The React state of `MapPanel` (lines 59-73). -/
structure SimState (K : Type) where
  position : K × K
  path : List (K × K)
  pathHistory : List (K × K)
  angle : K
  isTracking : Bool
  targetPos : Option (LatLng K)
  waypointQueue : List (LatLng K)
  anchorPos : K × K
  alert : Option String
  showRouteList : Bool
  missionStats : Option (MissionStats K)

section Model

variable {K : Type} [LinearOrderedField K] [FloorRing K]

/-- The initial map centre, `defaultCenter = [18.94, 72.83]`. -/
def defaultCenter : K × K := (18.94, 72.83)

/-- The initial values given to `useState` (lines 60-73). -/
def initialState : SimState K :=
  { position := defaultCenter
    path := [defaultCenter]
    pathHistory := []
    angle := 45
    isTracking := false
    targetPos := none
    waypointQueue := []
    anchorPos := defaultCenter
    alert := none
    showRouteList := false
    missionStats := none }

/-- Truncation toward zero, the rounding used by the `%` operator. -/
def jsTrunc (x : K) : ℤ := if 0 ≤ x then ⌊x⌋ else ⌈x⌉

/-- The `%` operator of JavaScript on numbers: the remainder has the sign of the dividend. -/
def jsRem (a b : K) : K := a - b * (jsTrunc (a / b) : K)

/-- The function `Math.sign`. -/
def jsSign (x : K) : K := if 0 < x then 1 else if x < 0 then -1 else 0

/-- The method `Number.prototype.toFixed(f)`, as the number its result denotes: the nearest
multiple of `10^(-f)`, ties going away from zero. -/
def toFixed (x : K) (f : ℕ) : K :=
  if x < 0 then -((⌊-x * 10 ^ f + 1 / 2⌋ : ℤ) : K) / 10 ^ f
  else ((⌊x * 10 ^ f + 1 / 2⌋ : ℤ) : K) / 10 ^ f

/-- The distance computed at line 100 from the current position to the target:
`Math.sqrt(dx * dx + dy * dy)`. -/
def targetDistance (m : JSMath K) (currentPos : K × K) (targetPos : LatLng K) : K :=
  let dx := targetPos.lat - currentPos.1
  let dy := targetPos.lng - currentPos.2
  m.sqrt (dx * dx + dy * dy)

/-- The distance computed at lines 154 and 232 between two stored points:
`Math.sqrt(Math.pow(a[0] - b[0], 2) + Math.pow(a[1] - b[1], 2))`. -/
def pointDistance (m : JSMath K) (a b : K × K) : K :=
  m.sqrt ((a.1 - b.1) ^ 2 + (a.2 - b.2) ^ 2)

/-- The desired heading in degrees, line 116. -/
def targetHeadingOf (m : JSMath K) (dy dx : K) : K := m.atan2 dy dx * 180 / m.PI

/-- The shortest-turn delta, line 120. -/
def deltaAngle (targetHeading currentAngle : K) : K :=
  jsRem (targetHeading - currentAngle + 540) 360 - 180

/-- The smooth-turning rule, lines 120-127. -/
def turnHeading (targetHeading currentAngle : K) : K :=
  let delta := deltaAngle targetHeading currentAngle
  let turnRate : K := 3
  if |delta| < turnRate then targetHeading
  else currentAngle + jsSign delta * turnRate

/-- The last `n` elements of an array, `xs.slice(-n)` for positive `n`. -/
def sliceLast {α : Type} (n : ℕ) (xs : List α) : List α := xs.drop (xs.length - n)

/-- The moving branch of the `setPath` updater (lines 152-165): the new wake trail and the
new full path history.  The nested `setPathHistory` call appends `newPos` to the history. -/
def movingPathUpdate (m : JSMath K) (newPos : K × K) (prev history : List (K × K)) :
    List (K × K) × List (K × K) :=
  let last := prev.getLast?.getD newPos
  let distMoved := pointDistance m newPos last
  if 0.0001 < distMoved then
    let updated := prev ++ [newPos]
    let history' := history ++ [newPos]
    if 150 < updated.length then (sliceLast 150 updated, history') else (updated, history')
  else (prev, history)

/-- The stopped branch of the `setPath` updater (lines 167-171). -/
def stoppedPathUpdate (prev : List (K × K)) : List (K × K) :=
  if 0 < prev.length then prev.drop 1 else prev

/-- What the interval callback reads from outside the React state: the clock `Date.now()`
and the value of `angle` captured by the closure of the running interval. -/
structure TickEnv (K : Type) where
  now : K
  angle : K

/-- The body of the interval callback (lines 89-174). -/
def tickBody (m : JSMath K) (env : TickEnv K) (s : SimState K) : SimState K :=
  let currentPos := s.position
  let currentAngle := s.angle
  match s.targetPos with
  | some targetPos =>
    let dx := targetPos.lat - currentPos.1
    let dy := targetPos.lng - currentPos.2
    let distance := m.sqrt (dx * dx + dy * dy)
    if distance < 0.0005 then
      let newPos : K × K := (targetPos.lat, targetPos.lng)
      let upd := movingPathUpdate m newPos s.path s.pathHistory
      { s with
        anchorPos := (targetPos.lat, targetPos.lng)
        targetPos := none
        position := newPos
        path := upd.1
        pathHistory := upd.2 }
    else
      let speed : K := 0.0002
      let moveX := (dx / distance) * speed
      let moveY := (dy / distance) * speed
      let newPos : K × K := (currentPos.1 + moveX, currentPos.2 + moveY)
      let targetHeading := targetHeadingOf m dy dx
      let newHeading := turnHeading targetHeading currentAngle
      let upd := movingPathUpdate m newPos s.path s.pathHistory
      { s with
        angle := newHeading
        position := newPos
        path := upd.1
        pathHistory := upd.2 }
  | none =>
    let time := env.now / 2000
    let driftRadius : K := 0.0002
    let newPos : K × K :=
      (s.anchorPos.1 + m.sin time * driftRadius * 0.5,
       s.anchorPos.2 + m.sin (time * 2) * driftRadius)
    let driftHeading := m.cos time * 15 + env.angle
    { s with
      angle := s.angle + (driftHeading - s.angle) * 0.05
      position := newPos
      path := stoppedPathUpdate s.path }

/-- One firing of the interval: the simulation loop exists only while `isTracking` holds
(line 87). -/
def tick (m : JSMath K) (env : TickEnv K) (s : SimState K) : SimState K :=
  if s.isTracking then tickBody m env s else s

/-- The accumulation loop of lines 228-233. -/
def totalDist (m : JSMath K) (pathHistory : List (K × K)) : K :=
  (pathHistory.zip pathHistory.tail).foldl
    (fun acc pp => acc + pointDistance m pp.2 pp.1) 0

/-- The statistics record built at lines 237-247. -/
def computeStats (m : JSMath K) (pathHistory : List (K × K)) : MissionStats K :=
  let nauticalMiles := toFixed (totalDist m pathHistory * 60 * 1.5) 2
  let fuelConsumed := toFixed (nauticalMiles * 15.2) 1
  { distance := nauticalMiles
    fuel := fuelConsumed
    duration := toFixed ((pathHistory.length : K) * 0.05 / 60) 1 }

/-- The mission-complete effect (lines 221-252). -/
def missionComplete (m : JSMath K) (s : SimState K) : SimState K :=
  if s.targetPos.isNone ∧ s.waypointQueue.length = 0 ∧ s.isTracking = true then
    { s with
      missionStats := some (computeStats m s.pathHistory)
      showRouteList := true
      isTracking := false
      pathHistory := [] }
  else s

/-- The waypoint-processing effect (lines 255-262). -/
def processWaypoints (s : SimState K) : SimState K :=
  match s.targetPos, s.waypointQueue with
  | none, nextWaypoint :: rest => { s with targetPos := some nextWaypoint, waypointQueue := rest }
  | _, _ => s

/-- The production navigability check (lines 206-211). -/
def isNavigable (_lat _lng : K) : Bool := true

/-- The text of the hazard alert (line 267). -/
def hazardText : String := "⚠️ NAVIGATION HAZARD: LAND / SHALLOW WATER DETECTED"

/-- The click handler (lines 264-277), with the navigability check as a parameter. -/
def handleMapClickWith (navigable : K → K → Bool) (latlng : LatLng K) (s : SimState K) :
    SimState K :=
  if !navigable latlng.lat latlng.lng then
    { s with alert := some hazardText }
  else
    { s with
      waypointQueue := s.waypointQueue ++ [latlng]
      alert := none
      showRouteList := true }

/-- The click handler as wired in the component. -/
def handleMapClick (latlng : LatLng K) (s : SimState K) : SimState K :=
  handleMapClickWith isNavigable latlng s

/-- The timer started at line 268: `setAlert(null)` after three seconds. -/
def alertTimeout (s : SimState K) : SimState K := { s with alert := none }

/-- The `Start Mission` button (line 330). -/
def startMission (s : SimState K) : SimState K := { s with isTracking := true }

/-- The `Abort / Clear` button (lines 338-343). -/
def abortMission (s : SimState K) : SimState K :=
  { s with
    waypointQueue := []
    targetPos := none
    missionStats := none
    isTracking := false }

/-- The dismiss button of the statistics card (line 360). -/
def dismissStats (s : SimState K) : SimState K := { s with missionStats := none }

/-- The route-list toggle (line 315). -/
def toggleRouteList (s : SimState K) : SimState K := { s with showRouteList := !s.showRouteList }

/-- The array method `filter((_, i) => i !== idx)` of line 409. -/
def filterIdxNe {α : Type} (idx : ℕ) (xs : List α) : List α :=
  (xs.enum.filter (fun p => p.1 != idx)).map Prod.snd

/-- The remove button of the waypoint at position `idx` of the list (line 409). -/
def removeWaypoint (idx : ℕ) (s : SimState K) : SimState K :=
  { s with waypointQueue := filterIdxNe idx s.waypointQueue }

/-! ### Runs of the simulator -/

/-- The user commands, timer firings and effects that change the React state. -/
inductive Event (K : Type) where
  | tick (env : TickEnv K)
  | missionComplete
  | processWaypoints
  | mapClick (latlng : LatLng K)
  | alertTimeout
  | startMission
  | abortMission
  | dismissStats
  | toggleRouteList
  | removeWaypoint (idx : ℕ)

/-- The state change of one event. -/
def applyEvent (m : JSMath K) : Event K → SimState K → SimState K
  | .tick env, s => tick m env s
  | .missionComplete, s => missionComplete m s
  | .processWaypoints, s => processWaypoints s
  | .mapClick latlng, s => handleMapClick latlng s
  | .alertTimeout, s => alertTimeout s
  | .startMission, s => startMission s
  | .abortMission, s => abortMission s
  | .dismissStats, s => dismissStats s
  | .toggleRouteList, s => toggleRouteList s
  | .removeWaypoint idx, s => removeWaypoint idx s

/-- The state after a sequence of events, the first event of the list happening first. -/
def run (m : JSMath K) (evs : List (Event K)) (s : SimState K) : SimState K :=
  evs.foldl (fun st e => applyEvent m e st) s

/-- The state after the interval has fired once for each element of `envs`. -/
def runTicks (m : JSMath K) (envs : List (TickEnv K)) (s : SimState K) : SimState K :=
  envs.foldl (fun st env => tick m env st) s

/-- The scenario of the specification: the vessel at the initial position `(18.94, 72.83)`,
tracking, with the single waypoint `(18.95, 72.84)` as active target. -/
def scenarioState : SimState K :=
  { (initialState : SimState K) with isTracking := true, targetPos := some ⟨18.95, 72.84⟩ }

/-- A tracking vessel at the initial position whose active target `(18.9401, 72.8301)` is
closer than the arrival threshold. -/
def nearState : SimState K :=
  { (initialState : SimState K) with isTracking := true, targetPos := some ⟨18.9401, 72.8301⟩ }

/-- A tracking vessel heading `270` at `(18.94, 72.84)` whose active target `(18.94, 72.83)`
lies due west, in the direction `atan2 = -90` degrees. -/
def westState : SimState K :=
  { (initialState : SimState K) with
    isTracking := true
    angle := 270
    position := (18.94, 72.84)
    targetPos := some ⟨18.94, 72.83⟩ }

/-- The route still to be sailed: the active target, if any, followed by the queue. -/
def pending (s : SimState K) : List (LatLng K) := s.targetPos.toList ++ s.waypointQueue

/-- The events other than the abort command and the removal of a waypoint. -/
def Event.keepsRoute : Event K → Bool
  | .abortMission => false
  | .removeWaypoint _ => false
  | _ => true

/-- The state after a click `0.00005` degrees north of the vessel, a second click, and the
`Start Mission` button: the vessel tracks toward the first click with a wake trail holding the
initial position. -/
def nearClickState (m : JSMath K) : SimState K :=
  run m [Event.mapClick ⟨18.94005, 72.83⟩, Event.processWaypoints,
    Event.mapClick ⟨18.95, 72.84⟩, Event.startMission] initialState

/-- A tracking state whose route is exhausted. -/
def drainedState : SimState K := { (initialState : SimState K) with isTracking := true }

/-! ### Navigability and the compass label -/

/-- The safe navigable channel of lines 181-188. -/
def navigablePolygon : List (K × K) :=
  [(18.96, 72.80), (18.92, 72.82), (18.90, 72.85), (18.91, 72.90), (18.95, 72.90), (18.98, 72.86)]

/-- The edge test of lines 195-199 for the vertices `vi = vs[i]` and `vj = vs[j]`; the
comparison with the quotient is evaluated only when the first conjunct holds. -/
def edgeIntersects (x y : K) (vi vj : K × K) : Bool :=
  let xi := vi.1
  let yi := vi.2
  let xj := vj.1
  let yj := vj.2
  (decide (yi > y) != decide (yj > y)) && decide (x < (xj - xi) * (y - yi) / (yj - yi) + xi)

/-- The ray-casting test of lines 191-203.  The loop state is the pair of `inside` and `j`;
`i` runs over `0, ..., vs.length - 1` and `j` starts at `vs.length - 1`. -/
def isPointInPolygon (point : K × K) (vs : List (K × K)) : Bool :=
  let x := point.1
  let y := point.2
  ((List.range vs.length).foldl
    (fun (st : Bool × ℕ) i =>
      let intersect := edgeIntersects x y (vs.getD i (0, 0)) (vs.getD st.2 (0, 0))
      (if intersect then !st.1 else st.1, i))
    (false, vs.length - 1)).1

/-- A navigability check that accepts the points of the polygon `vs`. -/
def polygonNavigable (vs : List (K × K)) (lat lng : K) : Bool := isPointInPolygon (lat, lng) vs

/-- The function `Math.round`: the nearest integer, ties going up. -/
def jsRound (x : K) : ℤ := ⌊x + 1 / 2⌋

/-- The array `directions` of line 215. -/
def directions : List String := ["N", "NE", "E", "SE", "S", "SW", "W", "NW"]

/-- The heading after the assignment `angle %= 360` and the wrap of a negative remainder
(line 216). -/
def normalizedAngle (angle : K) : K :=
  let angle := jsRem angle 360
  if angle < 0 then angle + 360 else angle

/-- The index computed at line 216; `%` on the integer given by `Math.round` is the truncated
remainder. -/
def compassIndex (angle : K) : ℤ := Int.tmod (jsRound (normalizedAngle angle / 45)) 8

/-- The helper `getCompassDirection` (lines 214-218); an index outside the array gives
`undefined`, here `none`. -/
def getCompassDirection (angle : K) : Option String :=
  let index := compassIndex angle
  if index < 0 then none else directions[index.toNat]?

/-- A state with two pending waypoints and an active target, not tracking. -/
def plannedState : SimState K :=
  { (initialState : SimState K) with
    targetPos := some ⟨18.95, 72.84⟩
    waypointQueue := [⟨18.96, 72.85⟩, ⟨18.93, 72.86⟩] }

/-- A full path history of two points one step length (`0.0002` degrees) apart. -/
def shortHistory : List (K × K) := [(18.94, 72.83), (18.9402, 72.83)]

/-- A tracking state without an active target, held at the initial anchor position. -/
def stationState : SimState K := { (initialState : SimState K) with isTracking := true }

/-! ### Checked ray casting and the zoom of the camera feed -/

/-- The edge test of lines 195-199 with its evaluation made explicit: `&&` evaluates the
comparison with the quotient only when `(yi > y) !== (yj > y)` holds, and the result is `none`
when the quotient is then evaluated with the denominator `yj - yi` equal to zero. -/
def edgeIntersectsChecked (x y : K) (vi vj : K × K) : Option Bool :=
  let xi := vi.1
  let yi := vi.2
  let xj := vj.1
  let yj := vj.2
  if (decide (yi > y) != decide (yj > y)) = true then
    if yj - yi = 0 then none
    else some (decide (x < (xj - xi) * (y - yi) / (yj - yi) + xi))
  else some false

/-- The loop of lines 191-203 with checked array accesses and the checked edge test: the
result is `none` when an index `i` or `j` falls outside `vs` or a quotient is evaluated with a
zero denominator. -/
def isPointInPolygonChecked (point : K × K) (vs : List (K × K)) : Option Bool :=
  let x := point.1
  let y := point.2
  ((List.range vs.length).foldl
    (fun (st : Option (Bool × ℕ)) i =>
      st.bind fun st =>
        (vs[i]?).bind fun vi =>
          (vs[st.2]?).bind fun vj =>
            (edgeIntersectsChecked x y vi vj).map fun intersect =>
              (if intersect then !st.1 else st.1, i))
    (some (false, vs.length - 1))).map Prod.fst

/-- The updater passed to `setZoomLevel` by `handleZoom(amount)` (CameraFeed.jsx, lines
24-26): `Math.max(1, Math.min(prev + amount, 3))`. -/
def handleZoom (amount prev : K) : K := max 1 (min (prev + amount) 3)

/-- The initial zoom level, `useState(1)` (CameraFeed.jsx, line 10). -/
def initialZoom : K := 1

/-- The two zoom buttons of the camera feed. -/
inductive ZoomPress where
  | zoomIn
  | zoomOut
deriving DecidableEq, Repr

/-- The amount passed by a button: `handleZoom(0.2)` and `handleZoom(-0.2)` (CameraFeed.jsx,
lines 86 and 95). -/
def ZoomPress.amount : ZoomPress → K
  | .zoomIn => 0.2
  | .zoomOut => -0.2

/-- The zoom level after a sequence of presses, starting from the initial level. -/
def zoomAfter (presses : List ZoomPress) : K :=
  presses.foldl (fun prev press => handleZoom press.amount prev) initialZoom

/-- A tracking state with an active target whose wake trail has dissipated. -/
def emptyTrailState : SimState K :=
  { (initialState : SimState K) with
    isTracking := true
    targetPos := some ⟨18.95, 72.84⟩
    path := [] }

/-! ### The enqueue order and the arrivals of a run -/

/-- The points clicked during a sequence of events, in the order of the clicks. -/
def clicks : List (Event K) → List (LatLng K)
  | [] => []
  | .mapClick latlng :: evs => latlng :: clicks evs
  | _ :: evs => clicks evs

/-- The waypoint reached by an event: a tick that finds the active target `q` and leaves the
active target cleared reaches `q`; any other event reaches nothing. -/
def arrivedAt (m : JSMath K) (e : Event K) (s : SimState K) : Option (LatLng K) :=
  match e, s.targetPos with
  | .tick env, some q => if (tick m env s).targetPos.isNone then some q else none
  | _, _ => none

/-- The waypoints reached during a run from the state `s`, in the order of the arrivals. -/
def arrivals (m : JSMath K) : List (Event K) → SimState K → List (LatLng K)
  | [], _ => []
  | e :: evs, s => (arrivedAt m e s).toList ++ arrivals m evs (applyEvent m e s)

end Model

/-! ### The real-number instance -/

/-- The `Math` functions over the real numbers; `Math.atan2(y, x)` is the argument of the
complex number `x + y i`. -/
noncomputable def realMath : JSMath ℝ :=
  { sqrt := Real.sqrt
    atan2 := fun y x => Complex.arg ⟨x, y⟩
    sin := Real.sin
    cos := Real.cos
    PI := Real.pi }

/-- The Euclidean distance between two positions. -/
noncomputable def euclid (a b : ℝ × ℝ) : ℝ := Real.sqrt ((a.1 - b.1) ^ 2 + (a.2 - b.2) ^ 2)

/-- The position of a waypoint as a pair. -/
def LatLng.toPos {K : Type} (q : LatLng K) : K × K := (q.lat, q.lng)

/-- A state is reachable when some sequence of events leads to it from the initial state. -/
def Reachable (s : SimState ℝ) : Prop := ∃ evs : List (Event ℝ), run realMath evs initialState = s

/-- The sum of the Euclidean distances between consecutive points of a history. -/
noncomputable def consecutiveSum (history : List (ℝ × ℝ)) : ℝ :=
  ((history.zip history.tail).map (fun pp => euclid pp.1 pp.2)).sum

/-- A heading wrapped into `[0, 360)`: the representative of `h` modulo `360`. -/
noncomputable def wrap360 (h : ℝ) : ℝ := h - 360 * ⌊h / 360⌋

/-- The most recent `n` points of a trail. -/
def mostRecent {α : Type} (n : ℕ) (xs : List α) : List α := (xs.reverse.take n).reverse

/-! ## Theorems -/

theorem targetDistance_eq_euclid (p : ℝ × ℝ) (q : LatLng ℝ) :
    targetDistance realMath p q = euclid q.toPos p := by
  simp only [targetDistance, euclid, realMath, LatLng.toPos]
  congr 1; ring

theorem sqrt_sq_add_sq_scale (dx dy c : ℝ) (hc : 0 ≤ c) :
    Real.sqrt ((dx * c) ^ 2 + (dy * c) ^ 2) = Real.sqrt (dx * dx + dy * dy) * c := by
  have h : (dx * c) ^ 2 + (dy * c) ^ 2 = (dx * dx + dy * dy) * c ^ 2 := by ring
  rw [h, Real.sqrt_mul' _ (sq_nonneg c), Real.sqrt_sq hc]

theorem tick_transit_position (env : TickEnv ℝ) (s : SimState ℝ) (q : LatLng ℝ)
    (htrack : s.isTracking = true) (ht : s.targetPos = some q)
    (hd : 0.0005 ≤ euclid q.toPos s.position) :
    (tick realMath env s).position =
      (s.position.1 + (q.lat - s.position.1) / euclid q.toPos s.position * 0.0002,
       s.position.2 + (q.lng - s.position.2) / euclid q.toPos s.position * 0.0002) := by
  have hnot : ¬ targetDistance realMath s.position q < 0.0005 := by
    rw [targetDistance_eq_euclid]; exact not_lt.mpr hd
  rw [← targetDistance_eq_euclid, tick, if_pos htrack, tickBody]
  simp only [ht]
  split
  · rename_i h
    exact absurd h hnot
  · rfl

theorem tick_transit_remaining (env : TickEnv ℝ) (s : SimState ℝ) (q : LatLng ℝ)
    (htrack : s.isTracking = true) (ht : s.targetPos = some q)
    (hd : 0.0005 ≤ euclid q.toPos s.position) :
    euclid q.toPos (tick realMath env s).position = euclid q.toPos s.position - 0.0002 := by
  rw [tick_transit_position env s q htrack ht hd]
  have hE : euclid q.toPos s.position =
      Real.sqrt ((q.lat - s.position.1) * (q.lat - s.position.1) +
        (q.lng - s.position.2) * (q.lng - s.position.2)) := by
    rw [← targetDistance_eq_euclid]; rfl
  set d := euclid q.toPos s.position with hdef
  have hdpos : 0 < d := lt_of_lt_of_le (by norm_num) hd
  simp only [euclid, LatLng.toPos]
  have h1 : ∀ a b : ℝ, a - (b + (a - b) / d * 0.0002) = (a - b) * (1 - 0.0002 / d) := by
    intro a b; ring
  have hc : (0 : ℝ) ≤ 1 - 0.0002 / d := by
    rw [sub_nonneg, div_le_one hdpos]; linarith
  rw [h1, h1, sqrt_sq_add_sq_scale _ _ _ hc, ← hE]
  field_simp

/-- C1. Transit step: while tracking, with the active target `q` at Euclidean distance
`d ≥ 0.0005` from the position `p`, one tick moves the vessel to a position `p'` with
`|p' - p| = 0.0002` and `|q - p'| = d - 0.0002`. -/
theorem tick_transit_step (env : TickEnv ℝ) (s : SimState ℝ) (q : LatLng ℝ)
    (htrack : s.isTracking = true) (ht : s.targetPos = some q)
    (hd : 0.0005 ≤ euclid q.toPos s.position) :
    euclid (tick realMath env s).position s.position = 0.0002 ∧
      euclid q.toPos (tick realMath env s).position = euclid q.toPos s.position - 0.0002 := by
  refine ⟨?_, tick_transit_remaining env s q htrack ht hd⟩
  rw [tick_transit_position env s q htrack ht hd]
  have hE : euclid q.toPos s.position =
      Real.sqrt ((q.lat - s.position.1) * (q.lat - s.position.1) +
        (q.lng - s.position.2) * (q.lng - s.position.2)) := by
    rw [← targetDistance_eq_euclid]; rfl
  set d := euclid q.toPos s.position with hdef
  have hdpos : 0 < d := lt_of_lt_of_le (by norm_num) hd
  simp only [euclid]
  have h1 : ∀ a b : ℝ, a + b / d * 0.0002 - a = b * (0.0002 / d) := by intro a b; ring
  rw [h1, h1, sqrt_sq_add_sq_scale _ _ _ (by positivity), ← hE]
  field_simp

theorem scenario_distance :
    (0.0005 : ℝ) ≤ euclid (LatLng.toPos ⟨18.95, 72.84⟩) (scenarioState : SimState ℝ).position := by
  simp only [euclid, LatLng.toPos, scenarioState, initialState, defaultCenter]
  apply Real.le_sqrt_of_sq_le
  norm_num

/-- Witness of C1 on the scenario of the specification. -/
theorem tick_transit_step_witness :
    euclid (tick realMath ⟨0, 0⟩ scenarioState).position (scenarioState : SimState ℝ).position = 0.0002 ∧
      euclid (LatLng.toPos ⟨18.95, 72.84⟩) (tick realMath ⟨0, 0⟩ scenarioState).position =
        euclid (LatLng.toPos ⟨18.95, 72.84⟩) (scenarioState : SimState ℝ).position - 0.0002 :=
  tick_transit_step ⟨0, 0⟩ scenarioState ⟨18.95, 72.84⟩ rfl rfl scenario_distance

theorem tick_arrival (env : TickEnv ℝ) (s : SimState ℝ) (q : LatLng ℝ)
    (htrack : s.isTracking = true) (ht : s.targetPos = some q)
    (hd : euclid q.toPos s.position < 0.0005) :
    tick realMath env s =
      { s with
        anchorPos := (q.lat, q.lng)
        targetPos := none
        position := (q.lat, q.lng)
        path := (movingPathUpdate realMath (q.lat, q.lng) s.path s.pathHistory).1
        pathHistory := (movingPathUpdate realMath (q.lat, q.lng) s.path s.pathHistory).2 } := by
  have hd' : targetDistance realMath s.position q < 0.0005 := by
    rw [targetDistance_eq_euclid]; exact hd
  rw [tick, if_pos htrack, tickBody]
  simp only [ht]
  exact if_pos hd'

/-- C2. Arrival snap: while tracking, with the active target `q` at Euclidean distance less
than `0.0005` from the position, one tick sets the position to exactly `(q.lat, q.lng)`, sets
the anchor position to `(q.lat, q.lng)` and clears the active target; the distance left to the
target is zero. -/
theorem tick_arrival_snap (env : TickEnv ℝ) (s : SimState ℝ) (q : LatLng ℝ)
    (htrack : s.isTracking = true) (ht : s.targetPos = some q)
    (hd : euclid q.toPos s.position < 0.0005) :
    (tick realMath env s).position = (q.lat, q.lng) ∧
      (tick realMath env s).anchorPos = (q.lat, q.lng) ∧
      (tick realMath env s).targetPos = none ∧
      euclid q.toPos (tick realMath env s).position = 0 := by
  rw [tick_arrival env s q htrack ht hd]
  refine ⟨rfl, rfl, rfl, ?_⟩
  simp [euclid, LatLng.toPos]

theorem near_distance :
    euclid (LatLng.toPos ⟨18.9401, 72.8301⟩) (nearState : SimState ℝ).position < 0.0005 := by
  simp only [euclid, LatLng.toPos, nearState, initialState, defaultCenter]
  rw [Real.sqrt_lt' (by norm_num)]
  norm_num

/-- Witness of C2: a target `0.0001` degrees north and east of the vessel. -/
theorem tick_arrival_snap_witness :
    (tick realMath ⟨0, 0⟩ nearState).position = (18.9401, 72.8301) ∧
      (tick realMath ⟨0, 0⟩ nearState).anchorPos = (18.9401, 72.8301) ∧
      (tick realMath ⟨0, 0⟩ nearState).targetPos = none ∧
      euclid (LatLng.toPos ⟨18.9401, 72.8301⟩) (tick realMath ⟨0, 0⟩ nearState).position = 0 :=
  tick_arrival_snap ⟨0, 0⟩ nearState ⟨18.9401, 72.8301⟩ rfl rfl near_distance

theorem tick_transit_frame (env : TickEnv ℝ) (s : SimState ℝ) (q : LatLng ℝ)
    (htrack : s.isTracking = true) (ht : s.targetPos = some q)
    (hd : 0.0005 ≤ euclid q.toPos s.position) :
    (tick realMath env s).isTracking = true ∧ (tick realMath env s).targetPos = some q := by
  have hd' : ¬ targetDistance realMath s.position q < 0.0005 := by
    rw [targetDistance_eq_euclid]; exact not_lt.mpr hd
  rw [tick, if_pos htrack, tickBody]
  simp only [ht]
  split
  · rename_i h
    exact absurd h hd'
  · exact ⟨htrack, rfl⟩

theorem tick_transit_angle (env : TickEnv ℝ) (s : SimState ℝ) (q : LatLng ℝ)
    (htrack : s.isTracking = true) (ht : s.targetPos = some q)
    (hd : 0.0005 ≤ euclid q.toPos s.position) :
    (tick realMath env s).angle =
      turnHeading (targetHeadingOf realMath (q.lng - s.position.2) (q.lat - s.position.1))
        s.angle := by
  have hd' : ¬ targetDistance realMath s.position q < 0.0005 := by
    rw [targetDistance_eq_euclid]; exact not_lt.mpr hd
  rw [tick, if_pos htrack, tickBody]
  simp only [ht]
  split
  · rename_i h
    exact absurd h hd'
  · rfl

theorem tick_env_irrelevant (env env' : TickEnv ℝ) (s : SimState ℝ) (q : LatLng ℝ)
    (ht : s.targetPos = some q) : tick realMath env s = tick realMath env' s := by
  simp only [tick, tickBody, ht]

theorem runTicks_cons (env : TickEnv ℝ) (envs : List (TickEnv ℝ)) (s : SimState ℝ) :
    runTicks realMath (env :: envs) s = runTicks realMath envs (tick realMath env s) := rfl

theorem reach_aux (N : ℕ) : ∀ (s : SimState ℝ) (q : LatLng ℝ),
    s.isTracking = true → s.targetPos = some q →
    euclid q.toPos s.position < 0.0005 + 0.0002 * N →
    ∃ n : ℕ, ∀ envs : List (TickEnv ℝ), envs.length = n →
      (runTicks realMath envs s).targetPos = none ∧
      (runTicks realMath envs s).position = q.toPos ∧
      ∀ k < n, (runTicks realMath (envs.take k) s).targetPos = some q := by
  have arrive : ∀ (s : SimState ℝ) (q : LatLng ℝ),
      s.isTracking = true → s.targetPos = some q →
      euclid q.toPos s.position < 0.0005 →
      ∃ n : ℕ, ∀ envs : List (TickEnv ℝ), envs.length = n →
        (runTicks realMath envs s).targetPos = none ∧
        (runTicks realMath envs s).position = q.toPos ∧
        ∀ k < n, (runTicks realMath (envs.take k) s).targetPos = some q := by
    intro s q htrack ht hd
    refine ⟨1, ?_⟩
    intro envs hlen
    obtain ⟨e, rfl⟩ := List.length_eq_one.mp hlen
    have h := tick_arrival e s q htrack ht hd
    refine ⟨by rw [runTicks_cons, h]; rfl, by rw [runTicks_cons, h]; rfl, ?_⟩
    intro k hk
    have hk0 : k = 0 := by omega
    subst hk0
    simpa [runTicks] using ht
  induction N with
  | zero =>
    intro s q htrack ht hd
    exact arrive s q htrack ht (by simpa using hd)
  | succ N ih =>
    intro s q htrack ht hd
    by_cases hnear : euclid q.toPos s.position < 0.0005
    · exact arrive s q htrack ht hnear
    · have hfar : 0.0005 ≤ euclid q.toPos s.position := not_lt.mp hnear
      have hframe := tick_transit_frame ⟨0, 0⟩ s q htrack ht hfar
      have hstep := tick_transit_remaining ⟨0, 0⟩ s q htrack ht hfar
      have hd' : euclid q.toPos (tick realMath ⟨0, 0⟩ s).position < 0.0005 + 0.0002 * N := by
        rw [hstep]
        push_cast at hd
        linarith
      obtain ⟨n, hn⟩ := ih (tick realMath ⟨0, 0⟩ s) q hframe.1 hframe.2 hd'
      refine ⟨n + 1, ?_⟩
      intro envs hlen
      match envs, hlen with
      | e :: es, hlen =>
        have hes : es.length = n := by simpa using hlen
        have hee : tick realMath e s = tick realMath ⟨0, 0⟩ s := tick_env_irrelevant e ⟨0, 0⟩ s q ht
        obtain ⟨h1, h2, h3⟩ := hn es hes
        rw [runTicks_cons, hee]
        refine ⟨h1, h2, ?_⟩
        intro k hk
        cases k with
        | zero => simpa [runTicks] using ht
        | succ k =>
          rw [List.take_succ_cons, runTicks_cons, hee]
          exact h3 k (by omega)

theorem reach_bound (s : SimState ℝ) (q : LatLng ℝ) :
    euclid q.toPos s.position <
      0.0005 + 0.0002 * (⌈euclid q.toPos s.position / 0.0002⌉₊ : ℕ) := by
  have h := Nat.le_ceil (euclid q.toPos s.position / 0.0002)
  rw [div_le_iff₀ (by norm_num)] at h
  linarith

/-- C3. Reaching the target: from every tracking state whose active target is `q`, there is a
number `n` of ticks after which the target is cleared and the position equals `q` exactly,
the target staying `q` during all earlier ticks. -/
theorem reaches_target (s : SimState ℝ) (q : LatLng ℝ)
    (htrack : s.isTracking = true) (ht : s.targetPos = some q) :
    ∃ n : ℕ, ∀ envs : List (TickEnv ℝ), envs.length = n →
      (runTicks realMath envs s).targetPos = none ∧
      (runTicks realMath envs s).position = (q.lat, q.lng) ∧
      ∀ k < n, (runTicks realMath (envs.take k) s).targetPos = some q := by
  apply reach_aux ⌈euclid q.toPos s.position / 0.0002⌉₊ s q htrack ht
  have h := Nat.le_ceil (euclid q.toPos s.position / 0.0002)
  rw [div_le_iff₀ (by norm_num)] at h
  linarith

/-- Witness of C3, the scenario of the specification: from `(18.94, 72.83)` with the single
waypoint `(18.95, 72.84)` the run ends at exactly `(18.95, 72.84)` with the target cleared. -/
theorem reaches_target_witness :
    ∃ n : ℕ, ∀ envs : List (TickEnv ℝ), envs.length = n →
      (runTicks realMath envs scenarioState).targetPos = none ∧
      (runTicks realMath envs scenarioState).position = (18.95, 72.84) ∧
      ∀ k < n, (runTicks realMath (envs.take k) scenarioState).targetPos = some ⟨18.95, 72.84⟩ :=
  reaches_target scenarioState ⟨18.95, 72.84⟩ rfl rfl

/-! ### Turning -/

theorem jsRem_360_nonneg (x : ℝ) (hx : 0 ≤ x) : 0 ≤ jsRem x 360 ∧ jsRem x 360 < 360 := by
  have hy : (0 : ℝ) ≤ x / 360 := by positivity
  have h1 := Int.floor_le (x / 360)
  have h2 := Int.lt_floor_add_one (x / 360)
  simp only [jsRem, jsTrunc, if_pos hy]
  constructor <;> linarith

theorem jsRem_360_neg (x : ℝ) (hx : x < 0) : -360 < jsRem x 360 ∧ jsRem x 360 ≤ 0 := by
  have hy : ¬ (0 : ℝ) ≤ x / 360 := by
    rw [not_le]; exact div_neg_of_neg_of_pos hx (by norm_num)
  have h1 := Int.le_ceil (x / 360)
  have h2 := Int.ceil_lt_add_one (x / 360)
  simp only [jsRem, jsTrunc, if_neg hy]
  constructor <;> linarith

theorem jsRem_360_congr (x : ℝ) : ∃ k : ℤ, jsRem x 360 = x - 360 * k :=
  ⟨jsTrunc (x / 360), rfl⟩

theorem jsSign_mul_three_abs (x : ℝ) : |jsSign x * 3| ≤ 3 := by
  unfold jsSign
  split_ifs <;> norm_num

theorem turnHeading_mod_360 (t c : ℝ) : ∃ k : ℤ, |turnHeading t c - c - 360 * k| ≤ 3 := by
  unfold turnHeading
  simp only
  split_ifs with h
  · obtain ⟨k, hk⟩ := jsRem_360_congr (t - c + 540)
    refine ⟨k - 1, ?_⟩
    have hδ : deltaAngle t c = t - c - 360 * ((k - 1 : ℤ) : ℝ) := by
      unfold deltaAngle
      rw [hk]
      push_cast
      ring
    rw [← hδ]
    exact le_of_lt h
  · refine ⟨0, ?_⟩
    have h0 : c + jsSign (deltaAngle t c) * 3 - c - 360 * ((0 : ℤ) : ℝ) =
        jsSign (deltaAngle t c) * 3 := by
      push_cast; ring
    rw [h0]
    exact jsSign_mul_three_abs _

theorem west_distance :
    (0.0005 : ℝ) ≤ euclid (LatLng.toPos ⟨18.94, 72.83⟩) (westState : SimState ℝ).position := by
  simp only [euclid, LatLng.toPos, westState, initialState]
  apply Real.le_sqrt_of_sq_le
  norm_num

theorem atan2_west : realMath.atan2 (72.83 - 72.84) (18.94 - 18.94) = -(Real.pi / 2) := by
  have h : (⟨18.94 - 18.94, 72.83 - 72.84⟩ : ℂ) = ((0.01 : ℝ) : ℂ) * (-Complex.I) := by
    apply Complex.ext <;> norm_num
  show Complex.arg ⟨18.94 - 18.94, 72.83 - 72.84⟩ = -(Real.pi / 2)
  rw [h, Complex.arg_real_mul _ (by norm_num), Complex.arg_neg_I]

theorem west_new_angle (env : TickEnv ℝ) : (tick realMath env westState).angle = -90 := by
  rw [tick_transit_angle env westState ⟨18.94, 72.83⟩ rfl rfl west_distance]
  have ht : targetHeadingOf realMath ((72.83 : ℝ) - 72.84) (18.94 - 18.94) = -90 := by
    rw [targetHeadingOf, atan2_west]
    show -(Real.pi / 2) * 180 / Real.pi = -90
    field_simp
    ring
  show turnHeading (targetHeadingOf realMath ((72.83 : ℝ) - 72.84) (18.94 - 18.94)) 270 = -90
  rw [ht]
  have hδ : deltaAngle (-90 : ℝ) 270 = 0 := by
    simp only [deltaAngle, jsRem, jsTrunc]
    norm_num
  simp only [turnHeading, hδ]
  norm_num

/-- C4, counterexample. The vessel heads `270` and its target lies due west (`atan2` gives
`-90` degrees): the shortest-turn delta is `0`, the tick snaps the heading to `-90`, and the
heading after the tick differs from the heading before it by `360`, not by at most `3`. -/
theorem heading_jump_counterexample :
    (westState : SimState ℝ).angle = 270 ∧
      (tick realMath ⟨0, 0⟩ westState).angle = -90 ∧
      ¬ |(tick realMath ⟨0, 0⟩ westState).angle - (westState : SimState ℝ).angle| ≤ 3 := by
  refine ⟨rfl, west_new_angle _, ?_⟩
  rw [west_new_angle]
  show ¬ |(-90 : ℝ) - 270| ≤ 3
  norm_num [abs_le]

/-- C4, amended. Bounded turning modulo a full turn: for every tracking state with an active
target, the heading after one tick differs from the heading before it by at most `3` degrees
up to a multiple of `360`. -/
theorem turn_bounded_mod_360 (env : TickEnv ℝ) (s : SimState ℝ) (q : LatLng ℝ)
    (htrack : s.isTracking = true) (ht : s.targetPos = some q) :
    ∃ k : ℤ, |(tick realMath env s).angle - s.angle - 360 * k| ≤ 3 := by
  by_cases hnear : euclid q.toPos s.position < 0.0005
  · refine ⟨0, ?_⟩
    rw [tick_arrival env s q htrack ht hnear]
    simp
  · rw [tick_transit_angle env s q htrack ht (not_lt.mp hnear)]
    exact turnHeading_mod_360 _ _

/-- Witness of C4 (amended) on the state of the counterexample: the jump from `270` to `-90`
is a turn by `0` degrees up to a multiple of `360`. -/
theorem turn_bounded_mod_360_witness :
    ∃ k : ℤ, |(tick realMath ⟨0, 0⟩ westState).angle - (westState : SimState ℝ).angle - 360 * k|
      ≤ 3 :=
  turn_bounded_mod_360 ⟨0, 0⟩ westState ⟨18.94, 72.83⟩ rfl rfl

/-- C5, counterexample. For desired heading `180` (the value of `atan2` for a target due
south) and current heading `0` the dividend is `720`, the remainder is `0` and the delta is
`-180`, which lies outside `(-180, 180]`. -/
theorem deltaAngle_counterexample :
    targetHeadingOf realMath 0 (-1) = 180 ∧
      deltaAngle (180 : ℝ) 0 = -180 ∧
      ¬ (-180 < deltaAngle (180 : ℝ) 0 ∧ deltaAngle (180 : ℝ) 0 ≤ 180) := by
  have h1 : deltaAngle (180 : ℝ) 0 = -180 := by
    simp only [deltaAngle, jsRem, jsTrunc]
    norm_num
  have h0 : targetHeadingOf realMath 0 (-1) = 180 := by
    have h : (⟨-1, 0⟩ : ℂ) = -1 := by
      apply Complex.ext <;> simp
    show Complex.arg ⟨-1, 0⟩ * 180 / Real.pi = 180
    rw [h, Complex.arg_neg_one]
    field_simp
  refine ⟨h0, h1, ?_⟩
  rw [h1]; norm_num

/-- C5, amended. For every current heading `c` and desired heading `t` whose dividend
`t - c + 540` is not negative, the delta of the tick lies in `[-180, 180)` and is congruent to
`t - c` modulo `360`. -/
theorem deltaAngle_range (t c : ℝ) (h : 0 ≤ t - c + 540) :
    (-180 ≤ deltaAngle t c ∧ deltaAngle t c < 180) ∧
      ∃ k : ℤ, deltaAngle t c = t - c + 360 * k := by
  have hr := jsRem_360_nonneg _ h
  obtain ⟨k, hk⟩ := jsRem_360_congr (t - c + 540)
  refine ⟨?_, 1 - k, ?_⟩
  · unfold deltaAngle
    constructor <;> linarith [hr.1, hr.2]
  · unfold deltaAngle
    rw [hk]
    push_cast
    ring

/-- Witness of C5 (amended) at the input of the counterexample: desired heading `180` and
current heading `0`. -/
theorem deltaAngle_range_witness :
    (-180 ≤ deltaAngle (180 : ℝ) 0 ∧ deltaAngle (180 : ℝ) 0 < 180) ∧
      ∃ k : ℤ, deltaAngle (180 : ℝ) 0 = 180 - 0 + 360 * k :=
  deltaAngle_range 180 0 (by norm_num)

/-- The remainder of a negative dividend keeps its sign: desired heading `0` and current
heading `600` give the delta `-240`. -/
theorem deltaAngle_negative_dividend : deltaAngle (0 : ℝ) 600 = -240 := by
  have hc : ⌈(-(1 / 6) : ℝ)⌉ = 0 := by
    rw [Int.ceil_eq_iff]; norm_num
  simp only [deltaAngle, jsRem, jsTrunc]
  norm_num [hc]

/-! ### The order of visits -/

theorem run_cons (e : Event ℝ) (evs : List (Event ℝ)) (s : SimState ℝ) :
    run realMath (e :: evs) s = run realMath evs (applyEvent realMath e s) := rfl

theorem run_append (evs evs' : List (Event ℝ)) (s : SimState ℝ) :
    run realMath (evs ++ evs') s = run realMath evs' (run realMath evs s) := by
  simp [run, List.foldl_append]

theorem processWaypoints_spec (s : SimState ℝ) :
    (s.targetPos = none ∧ ∃ a rest, s.waypointQueue = a :: rest ∧
        processWaypoints s = { s with targetPos := some a, waypointQueue := rest }) ∨
      ((s.targetPos ≠ none ∨ s.waypointQueue = []) ∧ processWaypoints s = s) := by
  rcases ht : s.targetPos with _ | q
  · rcases hq : s.waypointQueue with _ | ⟨a, rest⟩
    · right
      refine ⟨Or.inr rfl, ?_⟩
      simp [processWaypoints, ht, hq]
    · left
      refine ⟨rfl, a, rest, rfl, ?_⟩
      simp [processWaypoints, ht, hq]
  · right
    refine ⟨Or.inl (by simp), ?_⟩
    simp [processWaypoints, ht]

theorem run_map_tick (envs : List (TickEnv ℝ)) (s : SimState ℝ) :
    run realMath (envs.map Event.tick) s = runTicks realMath envs s := by
  simp [run, runTicks, List.foldl_map, applyEvent]

theorem tick_waypointQueue (env : TickEnv ℝ) (s : SimState ℝ) :
    (tick realMath env s).waypointQueue = s.waypointQueue := by
  unfold tick tickBody
  split
  · split
    · simp only
      split <;> rfl
    · rfl
  · rfl

theorem runTicks_waypointQueue (envs : List (TickEnv ℝ)) : ∀ s : SimState ℝ,
    (runTicks realMath envs s).waypointQueue = s.waypointQueue := by
  induction envs with
  | nil => intro s; rfl
  | cons e es ih =>
    intro s
    rw [runTicks_cons, ih, tick_waypointQueue]

theorem clicks_cons (e : Event ℝ) (evs : List (Event ℝ)) :
    clicks (e :: evs) = clicks [e] ++ clicks evs := by
  cases e <;> rfl

theorem clicks_append (evs evs' : List (Event ℝ)) :
    clicks (evs ++ evs') = clicks evs ++ clicks evs' := by
  induction evs with
  | nil => rfl
  | cons e evs ih =>
    rw [List.cons_append, clicks_cons, ih, clicks_cons e evs, List.append_assoc]

theorem arrivals_append (evs evs' : List (Event ℝ)) : ∀ s : SimState ℝ,
    arrivals realMath (evs ++ evs') s =
      arrivals realMath evs s ++ arrivals realMath evs' (run realMath evs s) := by
  induction evs with
  | nil => intro s; rfl
  | cons e evs ih =>
    intro s
    rw [List.cons_append, arrivals, arrivals, ih, run_cons, List.append_assoc]

theorem tick_target_cases (env : TickEnv ℝ) (s : SimState ℝ) :
    (tick realMath env s).targetPos = s.targetPos ∨
      ∃ q, s.targetPos = some q ∧ (tick realMath env s).targetPos = none ∧
        (tick realMath env s).position = (q.lat, q.lng) := by
  by_cases htrack : s.isTracking = true
  · rcases ht : s.targetPos with _ | q
    · left
      rw [tick, if_pos htrack, tickBody]
      simp only [ht]
    · by_cases hnear : euclid q.toPos s.position < 0.0005
      · right
        have h := tick_arrival env s q htrack ht hnear
        exact ⟨q, rfl, by rw [h], by rw [h]⟩
      · left
        exact (tick_transit_frame env s q htrack ht (not_lt.mp hnear)).2
  · left
    rw [tick, if_neg htrack]

theorem arrivedAt_spec (e : Event ℝ) (s : SimState ℝ) (q : LatLng ℝ)
    (h : arrivedAt realMath e s = some q) :
    ∃ env, e = Event.tick env ∧ s.targetPos = some q ∧
      (applyEvent realMath e s).targetPos = none ∧
      (applyEvent realMath e s).position = (q.lat, q.lng) := by
  cases e with
  | tick env =>
    rcases ht : s.targetPos with _ | q'
    · simp [arrivedAt, ht] at h
    · simp only [arrivedAt, ht] at h
      split_ifs at h with hnone
      have hq : q' = q := by simpa using h
      subst hq
      have hn : (tick realMath env s).targetPos = none := by
        simpa using hnone
      rcases tick_target_cases env s with hsame | ⟨q'', hq'', -, hpos⟩
      · rw [hn, ht] at hsame
        exact absurd hsame (by simp)
      · have hqq : q'' = q' := by
          rw [ht] at hq''
          exact (Option.some.inj hq'').symm
        subst hqq
        exact ⟨env, rfl, rfl, hn, hpos⟩
  | missionComplete => simp [arrivedAt] at h
  | processWaypoints => simp [arrivedAt] at h
  | mapClick latlng => simp [arrivedAt] at h
  | alertTimeout => simp [arrivedAt] at h
  | startMission => simp [arrivedAt] at h
  | abortMission => simp [arrivedAt] at h
  | dismissStats => simp [arrivedAt] at h
  | toggleRouteList => simp [arrivedAt] at h
  | removeWaypoint idx => simp [arrivedAt] at h

theorem route_step (e : Event ℝ) (s : SimState ℝ) (he : e.keepsRoute = true) :
    (arrivedAt realMath e s).toList ++ pending (applyEvent realMath e s) =
      pending s ++ clicks [e] := by
  cases e with
  | tick env =>
    have hq := tick_waypointQueue env s
    rcases tick_target_cases env s with hsame | ⟨q, hq', hnone, -⟩
    · have ha : arrivedAt realMath (Event.tick env) s = none := by
        rcases ht : s.targetPos with _ | q
        · simp [arrivedAt, ht]
        · simp [arrivedAt, ht, hsame]
      simp [ha, applyEvent, pending, hq, hsame, clicks]
    · have ha : arrivedAt realMath (Event.tick env) s = some q := by
        simp [arrivedAt, hq', hnone]
      simp [ha, applyEvent, pending, hq, hq', hnone, clicks]
  | missionComplete =>
    have h : pending (missionComplete realMath s) = pending s := by
      simp only [missionComplete]
      split <;> rfl
    simp [arrivedAt, applyEvent, h, clicks]
  | processWaypoints =>
    have h : pending (processWaypoints s) = pending s := by
      rcases processWaypoints_spec s with ⟨ht, a, rest, hq, h⟩ | ⟨_, h⟩
      · simp [h, pending, ht, hq]
      · rw [h]
    simp [arrivedAt, applyEvent, h, clicks]
  | mapClick latlng =>
    simp [arrivedAt, applyEvent, handleMapClick, handleMapClickWith, isNavigable, pending, clicks]
  | alertTimeout => simp [arrivedAt, applyEvent, alertTimeout, pending, clicks]
  | startMission => simp [arrivedAt, applyEvent, startMission, pending, clicks]
  | abortMission => simp [Event.keepsRoute] at he
  | dismissStats => simp [arrivedAt, applyEvent, dismissStats, pending, clicks]
  | toggleRouteList => simp [arrivedAt, applyEvent, toggleRouteList, pending, clicks]
  | removeWaypoint idx => simp [Event.keepsRoute] at he

theorem route_discipline (evs : List (Event ℝ)) : ∀ s : SimState ℝ,
    (∀ e ∈ evs, e.keepsRoute = true) →
    arrivals realMath evs s ++ pending (run realMath evs s) = pending s ++ clicks evs := by
  induction evs with
  | nil => intro s _; simp [arrivals, run, clicks]
  | cons e evs ih =>
    intro s hk
    have he : e.keepsRoute = true := hk e (List.mem_cons_self _ _)
    have hk' : ∀ e' ∈ evs, e'.keepsRoute = true := fun e' h => hk e' (List.mem_cons_of_mem _ h)
    rw [arrivals, run_cons, List.append_assoc, ih _ hk', ← List.append_assoc, route_step e s he,
      List.append_assoc, ← clicks_cons]

theorem arrivals_locate (evs : List (Event ℝ)) : ∀ (s : SimState ℝ) (i : ℕ) (q : LatLng ℝ),
    (arrivals realMath evs s)[i]? = some q →
    ∃ pre env post, evs = pre ++ Event.tick env :: post ∧
      (arrivals realMath pre s).length = i ∧
      (run realMath pre s).targetPos = some q ∧
      (run realMath (pre ++ [Event.tick env]) s).targetPos = none ∧
      (run realMath (pre ++ [Event.tick env]) s).position = (q.lat, q.lng) := by
  induction evs with
  | nil =>
    intro s i q h
    simp [arrivals] at h
  | cons e evs ih =>
    intro s i q h
    rw [arrivals] at h
    have shift : ∀ i' : ℕ, (arrivals realMath evs (applyEvent realMath e s))[i']? = some q →
        (arrivals realMath [e] s).length + i' = i →
        ∃ pre env post, e :: evs = pre ++ Event.tick env :: post ∧
          (arrivals realMath pre s).length = i ∧
          (run realMath pre s).targetPos = some q ∧
          (run realMath (pre ++ [Event.tick env]) s).targetPos = none ∧
          (run realMath (pre ++ [Event.tick env]) s).position = (q.lat, q.lng) := by
      intro i' h' hlen
      obtain ⟨pre, env, post, hevs, h1, h2, h3, h4⟩ := ih (applyEvent realMath e s) i' q h'
      refine ⟨e :: pre, env, post, by rw [hevs]; rfl, ?_, ?_, ?_, ?_⟩
      · have ha : arrivals realMath (e :: pre) s =
            arrivals realMath [e] s ++ arrivals realMath pre (applyEvent realMath e s) := by
          simp [arrivals]
        rw [ha, List.length_append, h1, hlen]
      · rw [run_cons]; exact h2
      · rw [List.cons_append, run_cons]; exact h3
      · rw [List.cons_append, run_cons]; exact h4
    rcases ha : arrivedAt realMath e s with _ | q0
    · rw [ha] at h
      exact shift i (by simpa using h) (by simp [arrivals, ha])
    · rw [ha] at h
      cases i with
      | zero =>
        have hq : q0 = q := by simpa using h
        subst hq
        obtain ⟨env, rfl, ht, hnone, hpos⟩ := arrivedAt_spec e s q0 ha
        exact ⟨[], env, evs, rfl, rfl, ht, hnone, hpos⟩
      | succ i' =>
        exact shift i' (by simpa using h) (by simp [arrivals, ha]; omega)

theorem getElem?_append_cons {α : Type} (l r : List α) (x : α) :
    (l ++ x :: r)[l.length]? = some x := by
  rw [List.getElem?_append_right (le_refl _)]
  simp

theorem target_head_of_pending (s : SimState ℝ) (x : LatLng ℝ) (h : s.targetPos = some x) :
    pending s = x :: s.waypointQueue := by
  simp [pending, h]

/-- C6. FIFO visit order.  The waypoint-processing step either finds the active target empty
and the queue non-empty, and then makes the first element of the queue the target and removes
exactly that element, or it changes nothing.  In every run without abort and removal, from
every state, the waypoints reached so far followed by the route still pending are the route
pending at the start followed by the clicked points: waypoints are reached in the order in
which they were enqueued, and the active target is the first one not yet reached.
Consequently, when `A` and later `B` are clicked, whatever was pending before, and the `B` of
that click is the active target (the arrivals so far are as many as the waypoints enqueued
before it), then the waypoints reached are exactly those enqueued before `B`, in order, and a
tick has found the `A` of the first click as active target and cleared it by arrival at `A`. -/
theorem fifo_visit_order :
    (∀ s : SimState ℝ,
      (s.targetPos = none ∧ ∃ a rest, s.waypointQueue = a :: rest ∧
          processWaypoints s = { s with targetPos := some a, waypointQueue := rest }) ∨
        ((s.targetPos ≠ none ∨ s.waypointQueue = []) ∧ processWaypoints s = s)) ∧
      (∀ (s : SimState ℝ) (evs : List (Event ℝ)), (∀ e ∈ evs, e.keepsRoute = true) →
        arrivals realMath evs s ++ pending (run realMath evs s) = pending s ++ clicks evs ∧
          ∀ x, (run realMath evs s).targetPos = some x →
            (pending s ++ clicks evs)[(arrivals realMath evs s).length]? = some x) ∧
      (∀ (s : SimState ℝ) (A B : LatLng ℝ) (evs1 evs2 evs3 : List (Event ℝ)),
        (∀ e ∈ evs1, e.keepsRoute = true) → (∀ e ∈ evs2, e.keepsRoute = true) →
        (∀ e ∈ evs3, e.keepsRoute = true) →
        (run realMath (evs1 ++ Event.mapClick A :: (evs2 ++ Event.mapClick B :: evs3))
          s).targetPos.isSome = true →
        (arrivals realMath (evs1 ++ Event.mapClick A :: (evs2 ++ Event.mapClick B :: evs3))
          s).length = (pending s ++ clicks evs1 ++ A :: clicks evs2).length →
        (run realMath (evs1 ++ Event.mapClick A :: (evs2 ++ Event.mapClick B :: evs3))
            s).targetPos = some B ∧
          arrivals realMath (evs1 ++ Event.mapClick A :: (evs2 ++ Event.mapClick B :: evs3)) s =
            pending s ++ clicks evs1 ++ A :: clicks evs2 ∧
          ∃ pre env post,
            evs1 ++ Event.mapClick A :: (evs2 ++ Event.mapClick B :: evs3) =
              pre ++ Event.tick env :: post ∧
            (arrivals realMath pre s).length = (pending s ++ clicks evs1).length ∧
            (run realMath pre s).targetPos = some A ∧
            (run realMath (pre ++ [Event.tick env]) s).targetPos = none ∧
            (run realMath (pre ++ [Event.tick env]) s).position = (A.lat, A.lng)) := by
  refine ⟨processWaypoints_spec, ?_, ?_⟩
  · intro s evs hk
    have hd := route_discipline evs s hk
    refine ⟨hd, ?_⟩
    intro x hx
    rw [← hd, target_head_of_pending _ x hx]
    exact getElem?_append_cons _ _ _
  · intro s A B evs1 evs2 evs3 h1 h2 h3 hsome hlen
    have hk : ∀ e ∈ evs1 ++ Event.mapClick A :: (evs2 ++ Event.mapClick B :: evs3),
        e.keepsRoute = true := by
      intro e he
      simp only [List.mem_append, List.mem_cons] at he
      rcases he with he | rfl | he | rfl | he
      · exact h1 e he
      · rfl
      · exact h2 e he
      · rfl
      · exact h3 e he
    have hd := route_discipline _ s hk
    have hc : clicks (evs1 ++ Event.mapClick A :: (evs2 ++ Event.mapClick B :: evs3)) =
        clicks evs1 ++ A :: (clicks evs2 ++ B :: clicks evs3) := by
      rw [clicks_append, clicks, clicks_append, clicks]
    have hsplit : pending s ++
        clicks (evs1 ++ Event.mapClick A :: (evs2 ++ Event.mapClick B :: evs3)) =
        (pending s ++ clicks evs1 ++ A :: clicks evs2) ++ B :: clicks evs3 := by
      rw [hc]
      simp
    rw [hsplit] at hd
    obtain ⟨harr, hpend⟩ := List.append_inj hd hlen
    obtain ⟨x, hx⟩ := Option.isSome_iff_exists.mp hsome
    have hxB : x = B := by
      rw [target_head_of_pending _ x hx] at hpend
      exact (List.cons.inj hpend).1
    have hA : (arrivals realMath
        (evs1 ++ Event.mapClick A :: (evs2 ++ Event.mapClick B :: evs3)) s)[
          (pending s ++ clicks evs1).length]? = some A := by
      rw [harr]
      exact getElem?_append_cons _ _ _
    refine ⟨by rw [hx, hxB], harr, arrivals_locate _ s _ A hA⟩

theorem tick_isTracking (env : TickEnv ℝ) (s : SimState ℝ) :
    (tick realMath env s).isTracking = s.isTracking := by
  unfold tick tickBody
  split
  · split
    · simp only
      split <;> rfl
    · rfl
  · rfl

theorem runTicks_isTracking (envs : List (TickEnv ℝ)) : ∀ s : SimState ℝ,
    (runTicks realMath envs s).isTracking = s.isTracking := by
  induction envs with
  | nil => intro s; rfl
  | cons e es ih =>
    intro s
    rw [runTicks_cons, ih, tick_isTracking]

theorem clicks_map_tick (envs : List (TickEnv ℝ)) :
    clicks (envs.map Event.tick) = ([] : List (LatLng ℝ)) := by
  induction envs with
  | nil => rfl
  | cons e es ih =>
    rw [List.map_cons, clicks_cons, ih]
    rfl

theorem leg_events (s : SimState ℝ) (q nxt : LatLng ℝ) (rest : List (LatLng ℝ))
    (htrack : s.isTracking = true) (ht : s.targetPos = some q)
    (hq : s.waypointQueue = nxt :: rest) :
    ∃ leg : List (Event ℝ), (∀ e ∈ leg, e.keepsRoute = true) ∧ clicks leg = [] ∧
      (run realMath leg s).isTracking = true ∧
      (run realMath leg s).targetPos = some nxt ∧
      (run realMath leg s).waypointQueue = rest := by
  obtain ⟨n, hn⟩ := reach_aux _ s q htrack ht (reach_bound s q)
  obtain ⟨hnone, -, -⟩ := hn (List.replicate n ⟨0, 0⟩) (List.length_replicate _ _)
  have hqueue := runTicks_waypointQueue (List.replicate n ⟨0, 0⟩) s
  have htr := runTicks_isTracking (List.replicate n ⟨0, 0⟩) s
  rw [hq] at hqueue
  rw [htrack] at htr
  have hrun : run realMath ((List.replicate n (⟨0, 0⟩ : TickEnv ℝ)).map Event.tick ++
      [Event.processWaypoints]) s =
      processWaypoints (runTicks realMath (List.replicate n ⟨0, 0⟩) s) := by
    rw [run_append, run_map_tick]
    rfl
  refine ⟨(List.replicate n (⟨0, 0⟩ : TickEnv ℝ)).map Event.tick ++ [Event.processWaypoints],
    ?_, ?_, ?_, ?_, ?_⟩
  · intro e he
    simp only [List.mem_append, List.mem_map, List.mem_singleton] at he
    rcases he with ⟨env, -, rfl⟩ | rfl <;> rfl
  · rw [clicks_append, clicks_map_tick]
    rfl
  · rw [hrun]
    simp [processWaypoints, hnone, hqueue, htr]
  · rw [hrun]
    simp [processWaypoints, hnone, hqueue]
  · rw [hrun]
    simp [processWaypoints, hnone, hqueue]

/-- Witness of C6 on a route with an active target and two queued waypoints: after the clicks
`A = (18.92, 72.84)` and `B = (18.94, 72.88)` there is a run in which this `B` becomes the
active target; the waypoints reached are the three pending ones and then `A`, and a tick has
cleared the active target `A` by arrival. -/
theorem fifo_visit_order_witness :
    ∃ evs3 : List (Event ℝ), (∀ e ∈ evs3, e.keepsRoute = true) ∧
      (run realMath (Event.mapClick ⟨18.92, 72.84⟩ :: Event.mapClick ⟨18.94, 72.88⟩ :: evs3)
        plannedState).targetPos = some ⟨18.94, 72.88⟩ ∧
      arrivals realMath (Event.mapClick ⟨18.92, 72.84⟩ :: Event.mapClick ⟨18.94, 72.88⟩ :: evs3)
        plannedState = [⟨18.95, 72.84⟩, ⟨18.96, 72.85⟩, ⟨18.93, 72.86⟩, ⟨18.92, 72.84⟩] ∧
      ∃ pre env post,
        Event.mapClick ⟨18.92, 72.84⟩ :: Event.mapClick ⟨18.94, 72.88⟩ :: evs3 =
          pre ++ Event.tick env :: post ∧
        (arrivals realMath pre plannedState).length = 3 ∧
        (run realMath pre plannedState).targetPos = some ⟨18.92, 72.84⟩ ∧
        (run realMath (pre ++ [Event.tick env]) plannedState).targetPos = none ∧
        (run realMath (pre ++ [Event.tick env]) plannedState).position = (18.92, 72.84) := by
  let A : LatLng ℝ := ⟨18.92, 72.84⟩
  let B : LatLng ℝ := ⟨18.94, 72.88⟩
  let s0 : SimState ℝ :=
    run realMath [Event.mapClick A, Event.mapClick B, Event.startMission] plannedState
  obtain ⟨l1, k1, c1, t1, g1, q1⟩ :=
    leg_events s0 ⟨18.95, 72.84⟩ ⟨18.96, 72.85⟩ [⟨18.93, 72.86⟩, A, B] rfl rfl rfl
  obtain ⟨l2, k2, c2, t2, g2, q2⟩ :=
    leg_events (run realMath l1 s0) ⟨18.96, 72.85⟩ ⟨18.93, 72.86⟩ [A, B] t1 g1 q1
  obtain ⟨l3, k3, c3, t3, g3, q3⟩ :=
    leg_events (run realMath l2 (run realMath l1 s0)) ⟨18.93, 72.86⟩ A [B] t2 g2 q2
  obtain ⟨l4, k4, c4, t4, g4, q4⟩ :=
    leg_events (run realMath l3 (run realMath l2 (run realMath l1 s0))) A B [] t3 g3 q3
  have hk : ∀ e ∈ Event.startMission :: (l1 ++ (l2 ++ (l3 ++ l4))), e.keepsRoute = true := by
    intro e he
    simp only [List.mem_cons, List.mem_append] at he
    rcases he with rfl | he | he | he | he
    · rfl
    · exact k1 e he
    · exact k2 e he
    · exact k3 e he
    · exact k4 e he
  have hrun : run realMath
      (Event.mapClick A :: Event.mapClick B :: Event.startMission :: (l1 ++ (l2 ++ (l3 ++ l4))))
      plannedState =
      run realMath l4 (run realMath l3 (run realMath l2 (run realMath l1 s0))) := by
    have h : Event.mapClick A :: Event.mapClick B :: Event.startMission ::
        (l1 ++ (l2 ++ (l3 ++ l4))) =
        [Event.mapClick A, Event.mapClick B, Event.startMission] ++ (l1 ++ (l2 ++ (l3 ++ l4))) :=
      rfl
    rw [h, run_append, run_append, run_append, run_append]
  have htarget : (run realMath
      (Event.mapClick A :: Event.mapClick B :: Event.startMission :: (l1 ++ (l2 ++ (l3 ++ l4))))
      plannedState).targetPos = some B := by
    rw [hrun]; exact g4
  have hclicks : clicks (Event.startMission :: (l1 ++ (l2 ++ (l3 ++ l4)))) =
      ([] : List (LatLng ℝ)) := by
    rw [clicks_cons, clicks_append, clicks_append, clicks_append, c1, c2, c3, c4]
    rfl
  have hpend : pending (run realMath
      (Event.mapClick A :: Event.mapClick B :: Event.startMission :: (l1 ++ (l2 ++ (l3 ++ l4))))
      plannedState) = [B] := by
    rw [hrun, target_head_of_pending _ B g4, q4]
  have hall : ∀ e ∈ Event.mapClick A :: Event.mapClick B :: Event.startMission ::
      (l1 ++ (l2 ++ (l3 ++ l4))), e.keepsRoute = true := by
    intro e he
    rcases List.mem_cons.mp he with rfl | he
    · rfl
    · rcases List.mem_cons.mp he with rfl | he
      · rfl
      · exact hk e he
  have hd := (fifo_visit_order.2.1 plannedState _ hall).1
  rw [hpend] at hd
  have harr : arrivals realMath
      (Event.mapClick A :: Event.mapClick B :: Event.startMission :: (l1 ++ (l2 ++ (l3 ++ l4))))
      plannedState = [⟨18.95, 72.84⟩, ⟨18.96, 72.85⟩, ⟨18.93, 72.86⟩, A] := by
    have hc : clicks (Event.mapClick A :: Event.mapClick B :: Event.startMission ::
        (l1 ++ (l2 ++ (l3 ++ l4)))) = [A, B] := by
      rw [clicks_cons, clicks_cons (Event.mapClick B), hclicks]
      rfl
    rw [hc] at hd
    have hd' : arrivals realMath
        (Event.mapClick A :: Event.mapClick B :: Event.startMission ::
          (l1 ++ (l2 ++ (l3 ++ l4)))) plannedState ++ [B] =
        [⟨18.95, 72.84⟩, ⟨18.96, 72.85⟩, ⟨18.93, 72.86⟩, A] ++ [B] := hd
    exact List.append_cancel_right hd'
  have hmain := fifo_visit_order.2.2 plannedState A B [] []
    (Event.startMission :: (l1 ++ (l2 ++ (l3 ++ l4))))
    (fun _ h => absurd h (List.not_mem_nil _)) (fun _ h => absurd h (List.not_mem_nil _)) hk
    (by
      show (run realMath (Event.mapClick A :: Event.mapClick B :: Event.startMission ::
        (l1 ++ (l2 ++ (l3 ++ l4)))) plannedState).targetPos.isSome = true
      rw [htarget]; rfl)
    (by
      show (arrivals realMath (Event.mapClick A :: Event.mapClick B :: Event.startMission ::
        (l1 ++ (l2 ++ (l3 ++ l4)))) plannedState).length = _
      rw [harr]; rfl)
  exact ⟨Event.startMission :: (l1 ++ (l2 ++ (l3 ++ l4))), hk, htarget, harr, hmain.2.2⟩
/-! ### Mission completion -/

/-- C7. Mission completion fires exactly once: with no active target, an empty queue and
tracking on, the mission-complete step records the statistics computed from the full path
history, turns tracking off and resets the full path history to empty; applied to the
resulting state it changes nothing. -/
theorem missionComplete_once (s : SimState ℝ) (ht : s.targetPos = none)
    (hq : s.waypointQueue = []) (htrack : s.isTracking = true) :
    (missionComplete realMath s).missionStats = some (computeStats realMath s.pathHistory) ∧
      (missionComplete realMath s).isTracking = false ∧
      (missionComplete realMath s).pathHistory = [] ∧
      missionComplete realMath (missionComplete realMath s) = missionComplete realMath s := by
  have hc : s.targetPos.isNone ∧ s.waypointQueue.length = 0 ∧ s.isTracking = true := by
    simp [ht, hq, htrack]
  have h1 : missionComplete realMath s =
      { s with
        missionStats := some (computeStats realMath s.pathHistory)
        showRouteList := true
        isTracking := false
        pathHistory := [] } := by
    rw [missionComplete, if_pos hc]
  rw [h1]
  refine ⟨rfl, rfl, rfl, ?_⟩
  rw [missionComplete, if_neg]
  simp

/-- Witness of C7: the initial state with tracking switched on. -/
theorem missionComplete_once_witness :
    (missionComplete realMath drainedState).missionStats =
        some (computeStats realMath (drainedState : SimState ℝ).pathHistory) ∧
      (missionComplete realMath drainedState).isTracking = false ∧
      (missionComplete realMath drainedState).pathHistory = [] ∧
      missionComplete realMath (missionComplete realMath drainedState) =
        missionComplete realMath drainedState :=
  missionComplete_once drainedState rfl rfl rfl

/-! ### The wake trail and the full path history -/

theorem pointDistance_eq_euclid (a b : ℝ × ℝ) : pointDistance realMath a b = euclid a b := rfl

theorem tick_path_update (env : TickEnv ℝ) (s : SimState ℝ) (q : LatLng ℝ)
    (htrack : s.isTracking = true) (ht : s.targetPos = some q) :
    (tick realMath env s).path =
        (movingPathUpdate realMath (tick realMath env s).position s.path s.pathHistory).1 ∧
      (tick realMath env s).pathHistory =
        (movingPathUpdate realMath (tick realMath env s).position s.path s.pathHistory).2 := by
  rw [tick, if_pos htrack, tickBody]
  simp only [ht]
  split <;> exact ⟨rfl, rfl⟩

theorem movingPathUpdate_history (newPos : ℝ × ℝ) (prev history : List (ℝ × ℝ)) :
    (movingPathUpdate realMath newPos prev history).2 =
      if 0.0001 < euclid newPos (prev.getLast?.getD newPos) then history ++ [newPos]
      else history := by
  simp only [movingPathUpdate, pointDistance_eq_euclid]
  split_ifs <;> rfl

theorem euclid_self (a : ℝ × ℝ) : euclid a a = 0 := by
  simp [euclid]

/-- C8, amended. The full path history is appended under the guard of the wake trail: in a
tick with an active target, when the wake trail is non-empty and the new position lies more
than `0.0001` from its last point, the history after the tick is the history before it with
the new position appended; when the new position lies within `0.0001` of the last point, or
the wake trail is empty, the history is unchanged. -/
theorem history_append_guarded (env : TickEnv ℝ) (s : SimState ℝ) (q : LatLng ℝ)
    (htrack : s.isTracking = true) (ht : s.targetPos = some q) :
    (∀ last, s.path.getLast? = some last →
        0.0001 < euclid (tick realMath env s).position last →
        (tick realMath env s).pathHistory = s.pathHistory ++ [(tick realMath env s).position]) ∧
      (∀ last, s.path.getLast? = some last →
        euclid (tick realMath env s).position last ≤ 0.0001 →
        (tick realMath env s).pathHistory = s.pathHistory) ∧
      (s.path = [] → (tick realMath env s).pathHistory = s.pathHistory) := by
  have h := (tick_path_update env s q htrack ht).2
  rw [movingPathUpdate_history] at h
  refine ⟨?_, ?_, ?_⟩
  · intro last hl hd
    rw [hl, Option.getD_some, if_pos hd] at h
    exact h
  · intro last hl hd
    rw [hl, Option.getD_some, if_neg (not_lt.mpr hd)] at h
    exact h
  · intro he
    rw [he, List.getLast?_nil, Option.getD_none, euclid_self, if_neg (by norm_num)] at h
    exact h

theorem nearClick_distance :
    euclid (LatLng.toPos ⟨18.94005, 72.83⟩) (nearClickState realMath).position < 0.0005 := by
  show euclid ((18.94005 : ℝ), (72.83 : ℝ)) (18.94, 72.83) < 0.0005
  simp only [euclid]
  rw [Real.sqrt_lt' (by norm_num)]
  norm_num

theorem nearClick_moved :
    ¬ (0.0001 : ℝ) < euclid ((18.94005 : ℝ), (72.83 : ℝ)) (18.94, 72.83) := by
  simp only [euclid, not_lt]
  apply Real.sqrt_le_iff.mpr
  norm_num

/-- C8, counterexample. From the initial state, a click `0.00005` degrees north of the
vessel, a second click and `Start Mission` lead to a tracking state with an active target and
the wake trail `[(18.94, 72.83)]`.  The next tick moves the vessel to `(18.94005, 72.83)`,
which is within `0.0001` of the last point of the trail, and the full path history stays
empty: the new position is not appended. -/
theorem history_append_counterexample :
    (nearClickState realMath).isTracking = true ∧
      (nearClickState realMath).targetPos = some ⟨18.94005, 72.83⟩ ∧
      (nearClickState realMath).path = [(18.94, 72.83)] ∧
      (tick realMath ⟨0, 0⟩ (nearClickState realMath)).position = (18.94005, 72.83) ∧
      (tick realMath ⟨0, 0⟩ (nearClickState realMath)).pathHistory = [] ∧
      (tick realMath ⟨0, 0⟩ (nearClickState realMath)).pathHistory ≠
        (nearClickState realMath).pathHistory ++
          [(tick realMath ⟨0, 0⟩ (nearClickState realMath)).position] := by
  have hpos : (tick realMath ⟨0, 0⟩ (nearClickState realMath)).position = (18.94005, 72.83) := by
    rw [tick_arrival ⟨0, 0⟩ (nearClickState realMath) ⟨18.94005, 72.83⟩ rfl rfl
      nearClick_distance]
  have hhist : (tick realMath ⟨0, 0⟩ (nearClickState realMath)).pathHistory = [] := by
    rw [(tick_path_update ⟨0, 0⟩ (nearClickState realMath) ⟨18.94005, 72.83⟩ rfl rfl).2,
      movingPathUpdate_history, hpos]
    show (if 0.0001 < euclid ((18.94005 : ℝ), (72.83 : ℝ)) (18.94, 72.83) then _ else _) = _
    rw [if_neg nearClick_moved]
    rfl
  refine ⟨rfl, rfl, rfl, hpos, hhist, ?_⟩
  rw [hhist]
  simp

/-- Witness of C8 (amended) on the scenario of the specification, whose wake trail holds the
initial position. -/
theorem history_append_guarded_witness :
    (∀ last, (scenarioState : SimState ℝ).path.getLast? = some last →
        0.0001 < euclid (tick realMath ⟨0, 0⟩ scenarioState).position last →
        (tick realMath ⟨0, 0⟩ scenarioState).pathHistory =
          (scenarioState : SimState ℝ).pathHistory ++
            [(tick realMath ⟨0, 0⟩ scenarioState).position]) ∧
      (∀ last, (scenarioState : SimState ℝ).path.getLast? = some last →
        euclid (tick realMath ⟨0, 0⟩ scenarioState).position last ≤ 0.0001 →
        (tick realMath ⟨0, 0⟩ scenarioState).pathHistory =
          (scenarioState : SimState ℝ).pathHistory) ∧
      ((scenarioState : SimState ℝ).path = [] →
        (tick realMath ⟨0, 0⟩ scenarioState).pathHistory =
          (scenarioState : SimState ℝ).pathHistory) :=
  history_append_guarded ⟨0, 0⟩ scenarioState ⟨18.95, 72.84⟩ rfl rfl

/-! ### The bound of the wake trail -/

theorem sliceLast_length_le {α : Type} (n : ℕ) (xs : List α) : (sliceLast n xs).length ≤ n := by
  simp only [sliceLast, List.length_drop]
  omega

theorem movingPathUpdate_length (m : JSMath ℝ) (newPos : ℝ × ℝ) (prev history : List (ℝ × ℝ))
    (h : prev.length ≤ 150) : (movingPathUpdate m newPos prev history).1.length ≤ 150 := by
  have hs := sliceLast_length_le 150 (prev ++ [newPos])
  simp only [movingPathUpdate]
  split_ifs with h1 h2
  · simpa using hs
  · simpa using h2
  · simpa using h

theorem stoppedPathUpdate_length (prev : List (ℝ × ℝ)) :
    (stoppedPathUpdate prev).length ≤ prev.length := by
  simp only [stoppedPathUpdate]
  split_ifs
  · simp
  · exact le_refl _

theorem tick_path_length (env : TickEnv ℝ) (s : SimState ℝ) (h : s.path.length ≤ 150) :
    (tick realMath env s).path.length ≤ 150 := by
  unfold tick tickBody
  split
  · split
    · simp only
      split
      · exact movingPathUpdate_length _ _ _ _ h
      · exact movingPathUpdate_length _ _ _ _ h
    · exact le_trans (stoppedPathUpdate_length _) h
  · exact h

theorem applyEvent_path_length (e : Event ℝ) (s : SimState ℝ) (h : s.path.length ≤ 150) :
    (applyEvent realMath e s).path.length ≤ 150 := by
  cases e with
  | tick env => exact tick_path_length env s h
  | missionComplete =>
    simp only [applyEvent, missionComplete]
    split <;> exact h
  | processWaypoints =>
    simp only [applyEvent, processWaypoints]
    split <;> exact h
  | mapClick latlng =>
    simp only [applyEvent, handleMapClick, handleMapClickWith]
    split <;> exact h
  | alertTimeout => exact h
  | startMission => exact h
  | abortMission => exact h
  | dismissStats => exact h
  | toggleRouteList => exact h
  | removeWaypoint idx => exact h

theorem run_path_length (evs : List (Event ℝ)) : ∀ s : SimState ℝ,
    s.path.length ≤ 150 → (run realMath evs s).path.length ≤ 150 := by
  induction evs with
  | nil => intro s h; exact h
  | cons e evs ih =>
    intro s h
    rw [run_cons]
    exact ih _ (applyEvent_path_length e s h)

/-- C9. Wake trail bound: the wake trail of the initial state has length at most `150`, every
event (tick in transit or station keeping, map click, abort, waypoint removal, mission
completion, and the remaining commands and effects) preserves the bound, and so the bound
holds in every reachable state. -/
theorem wake_trail_bound :
    (initialState : SimState ℝ).path.length ≤ 150 ∧
      (∀ (e : Event ℝ) (s : SimState ℝ), s.path.length ≤ 150 →
        (applyEvent realMath e s).path.length ≤ 150) ∧
      (∀ s : SimState ℝ, Reachable s → s.path.length ≤ 150) := by
  have h0 : (initialState : SimState ℝ).path.length ≤ 150 := by
    simp [initialState]
  refine ⟨h0, applyEvent_path_length, ?_⟩
  rintro s ⟨evs, rfl⟩
  exact run_path_length evs _ h0

/-! ### Abort -/

/-- C10. Abort: the abort command empties the waypoint queue, clears the active target,
clears the mission statistics and turns tracking off, and leaves the position, the heading,
the anchor position, the wake trail and the full path history as they were. -/
theorem abortMission_effect (s : SimState ℝ) :
    (abortMission s).waypointQueue = [] ∧
      (abortMission s).targetPos = none ∧
      (abortMission s).missionStats = none ∧
      (abortMission s).isTracking = false ∧
      (abortMission s).position = s.position ∧
      (abortMission s).angle = s.angle ∧
      (abortMission s).anchorPos = s.anchorPos ∧
      (abortMission s).path = s.path ∧
      (abortMission s).pathHistory = s.pathHistory := by
  unfold abortMission
  exact ⟨rfl, rfl, rfl, rfl, rfl, rfl, rfl, rfl, rfl⟩

/-! ### Enqueuing and removing waypoints -/

theorem handleMapClickWith_accept (navigable : ℝ → ℝ → Bool) (p : LatLng ℝ) (s : SimState ℝ)
    (h : navigable p.lat p.lng = true) :
    handleMapClickWith navigable p s =
      { s with waypointQueue := s.waypointQueue ++ [p], alert := none, showRouteList := true } := by
  simp [handleMapClickWith, h]

theorem handleMapClickWith_reject (navigable : ℝ → ℝ → Bool) (p : LatLng ℝ) (s : SimState ℝ)
    (h : navigable p.lat p.lng = false) :
    handleMapClickWith navigable p s = { s with alert := some hazardText } := by
  simp [handleMapClickWith, h]

theorem range_six : List.range 6 = [0, 1, 2, 3, 4, 5] := by decide

theorem polygon_accepts_harbour :
    polygonNavigable (navigablePolygon : List (ℝ × ℝ)) 18.94 72.85 = true := by
  simp only [polygonNavigable, isPointInPolygon, navigablePolygon, List.length_cons,
    List.length_nil, Nat.reduceAdd, range_six, List.foldl_cons, List.foldl_nil, edgeIntersects,
    List.getD_cons_zero, List.getD_cons_succ, Nat.reduceSub]
  norm_num

theorem polygon_rejects_north :
    polygonNavigable (navigablePolygon : List (ℝ × ℝ)) 19.5 72.85 = false := by
  simp only [polygonNavigable, isPointInPolygon, navigablePolygon, List.length_cons,
    List.length_nil, Nat.reduceAdd, range_six, List.foldl_cons, List.foldl_nil, edgeIntersects,
    List.getD_cons_zero, List.getD_cons_succ, Nat.reduceSub]
  norm_num

/-- C11. Enqueue does not auto-start: for every clicked point that the navigability predicate
accepts, the click handler yields the old queue with the point appended at the end (length
plus one, the earlier entries unchanged and in order) and leaves the tracking flag, the active
target, the position and the heading unchanged. -/
theorem enqueue_no_autostart (navigable : ℝ → ℝ → Bool) (p : LatLng ℝ) (s : SimState ℝ)
    (h : navigable p.lat p.lng = true) :
    (handleMapClickWith navigable p s).waypointQueue = s.waypointQueue ++ [p] ∧
      (handleMapClickWith navigable p s).waypointQueue.length = s.waypointQueue.length + 1 ∧
      (handleMapClickWith navigable p s).waypointQueue.take s.waypointQueue.length =
        s.waypointQueue ∧
      (handleMapClickWith navigable p s).isTracking = s.isTracking ∧
      (handleMapClickWith navigable p s).targetPos = s.targetPos ∧
      (handleMapClickWith navigable p s).position = s.position ∧
      (handleMapClickWith navigable p s).angle = s.angle := by
  rw [handleMapClickWith_accept navigable p s h]
  refine ⟨rfl, ?_, ?_, rfl, rfl, rfl, rfl⟩
  · simp
  · exact List.take_left _ _

/-- Witness of C11: a click inside the harbour polygon, accepted by the polygon check, on a
state that is not tracking. -/
theorem enqueue_no_autostart_witness :
    (handleMapClickWith (polygonNavigable navigablePolygon) ⟨18.94, 72.85⟩
        (plannedState : SimState ℝ)).waypointQueue =
        (plannedState : SimState ℝ).waypointQueue ++ [⟨18.94, 72.85⟩] ∧
      (handleMapClickWith (polygonNavigable navigablePolygon) ⟨18.94, 72.85⟩
        (plannedState : SimState ℝ)).waypointQueue.length =
        (plannedState : SimState ℝ).waypointQueue.length + 1 ∧
      (handleMapClickWith (polygonNavigable navigablePolygon) ⟨18.94, 72.85⟩
        (plannedState : SimState ℝ)).waypointQueue.take
          (plannedState : SimState ℝ).waypointQueue.length =
        (plannedState : SimState ℝ).waypointQueue ∧
      (handleMapClickWith (polygonNavigable navigablePolygon) ⟨18.94, 72.85⟩
        (plannedState : SimState ℝ)).isTracking = (plannedState : SimState ℝ).isTracking ∧
      (handleMapClickWith (polygonNavigable navigablePolygon) ⟨18.94, 72.85⟩
        (plannedState : SimState ℝ)).targetPos = (plannedState : SimState ℝ).targetPos ∧
      (handleMapClickWith (polygonNavigable navigablePolygon) ⟨18.94, 72.85⟩
        (plannedState : SimState ℝ)).position = (plannedState : SimState ℝ).position ∧
      (handleMapClickWith (polygonNavigable navigablePolygon) ⟨18.94, 72.85⟩
        (plannedState : SimState ℝ)).angle = (plannedState : SimState ℝ).angle :=
  enqueue_no_autostart (polygonNavigable navigablePolygon) ⟨18.94, 72.85⟩ plannedState
    polygon_accepts_harbour

/-- C12. Hazard rejection: with the navigability predicate as a parameter of the click
handler, for every point that the predicate rejects the waypoint queue, the active target and
the tracking flag are unchanged and the alert is set to the non-empty hazard text. -/
theorem hazard_rejection (navigable : ℝ → ℝ → Bool) (p : LatLng ℝ) (s : SimState ℝ)
    (h : navigable p.lat p.lng = false) :
    (handleMapClickWith navigable p s).waypointQueue = s.waypointQueue ∧
      (handleMapClickWith navigable p s).targetPos = s.targetPos ∧
      (handleMapClickWith navigable p s).isTracking = s.isTracking ∧
      (handleMapClickWith navigable p s).alert = some hazardText ∧
      hazardText ≠ "" := by
  rw [handleMapClickWith_reject navigable p s h]
  refine ⟨rfl, rfl, rfl, rfl, ?_⟩
  decide

/-- Witness of C12: a click north of the harbour polygon, rejected by the ray-casting test
`isPointInPolygon` on the polygon of the source. -/
theorem hazard_rejection_witness :
    (handleMapClickWith (polygonNavigable navigablePolygon) ⟨19.5, 72.85⟩
        (plannedState : SimState ℝ)).waypointQueue = (plannedState : SimState ℝ).waypointQueue ∧
      (handleMapClickWith (polygonNavigable navigablePolygon) ⟨19.5, 72.85⟩
        (plannedState : SimState ℝ)).targetPos = (plannedState : SimState ℝ).targetPos ∧
      (handleMapClickWith (polygonNavigable navigablePolygon) ⟨19.5, 72.85⟩
        (plannedState : SimState ℝ)).isTracking = (plannedState : SimState ℝ).isTracking ∧
      (handleMapClickWith (polygonNavigable navigablePolygon) ⟨19.5, 72.85⟩
        (plannedState : SimState ℝ)).alert = some hazardText ∧
      hazardText ≠ "" :=
  hazard_rejection (polygonNavigable navigablePolygon) ⟨19.5, 72.85⟩ plannedState
    polygon_rejects_north

/-- C13. Production navigability policy: `isNavigable` returns true for every latitude and
longitude, so for every clicked point and every state the click handler of the component does
not take the hazard branch: afterwards the alert is null and the queue is the old queue with
the point appended, one element longer. -/
theorem production_always_navigable :
    (∀ lat lng : ℝ, isNavigable lat lng = true) ∧
      (∀ (p : LatLng ℝ) (s : SimState ℝ),
        (handleMapClick p s).alert = none ∧
          (handleMapClick p s).waypointQueue = s.waypointQueue ++ [p] ∧
          (handleMapClick p s).waypointQueue.length = s.waypointQueue.length + 1) := by
  refine ⟨fun _ _ => rfl, ?_⟩
  intro p s
  rw [handleMapClick, handleMapClickWith_accept isNavigable p s rfl]
  refine ⟨rfl, rfl, ?_⟩
  simp

theorem filter_enumFrom_lt {α : Type} (xs : List α) : ∀ (m k : ℕ), k < m →
    ((xs.enumFrom m).filter (fun p => p.1 != k)).map Prod.snd = xs := by
  induction xs with
  | nil => intro m k _; rfl
  | cons x xs ih =>
    intro m k hk
    have hne : (m != k) = true := by simp; omega
    rw [List.enumFrom_cons, List.filter_cons_of_pos (by simpa using hne), List.map_cons,
      ih (m + 1) k (by omega)]

theorem filter_enumFrom_eraseIdx {α : Type} (xs : List α) : ∀ (m idx : ℕ),
    ((xs.enumFrom m).filter (fun p => p.1 != m + idx)).map Prod.snd = xs.eraseIdx idx := by
  induction xs with
  | nil => intro m idx; rfl
  | cons x xs ih =>
    intro m idx
    cases idx with
    | zero =>
      rw [List.enumFrom_cons, List.filter_cons_of_neg (by simp), List.eraseIdx_cons_zero]
      exact filter_enumFrom_lt xs (m + 1) (m + 0) (by omega)
    | succ i =>
      have hidx : m + (i + 1) = m + 1 + i := by omega
      rw [List.enumFrom_cons, List.filter_cons_of_pos (by simp), List.map_cons,
        List.eraseIdx_cons_succ, hidx, ih (m + 1) i]

theorem filterIdxNe_eq_eraseIdx {α : Type} (idx : ℕ) (xs : List α) :
    filterIdxNe idx xs = xs.eraseIdx idx := by
  have h := filter_enumFrom_eraseIdx xs 0 idx
  rw [Nat.zero_add] at h
  exact h

/-- C14. Remove waypoint: removing at index `i` yields the queue without its `i`-th element,
the other elements kept in their order and the length one less, when `i` is less than the
length; when `i` is out of range the queue is unchanged; the active target is unchanged in
both cases. -/
theorem removeWaypoint_spec (i : ℕ) (s : SimState ℝ) :
    (i < s.waypointQueue.length →
        (removeWaypoint i s).waypointQueue =
            s.waypointQueue.take i ++ s.waypointQueue.drop (i + 1) ∧
          (removeWaypoint i s).waypointQueue.length = s.waypointQueue.length - 1) ∧
      (s.waypointQueue.length ≤ i → (removeWaypoint i s).waypointQueue = s.waypointQueue) ∧
      (removeWaypoint i s).targetPos = s.targetPos := by
  have h : (removeWaypoint i s).waypointQueue = s.waypointQueue.eraseIdx i :=
    filterIdxNe_eq_eraseIdx i s.waypointQueue
  refine ⟨?_, ?_, rfl⟩
  · intro hi
    rw [h]
    refine ⟨List.eraseIdx_eq_take_drop_succ _ _, ?_⟩
    rw [List.length_eraseIdx, if_pos hi]
  · intro hi
    rw [h, List.eraseIdx_of_length_le hi]

/-! ### Mission statistics -/

theorem foldl_add_eq_sum {α : Type} (f : α → ℝ) (l : List α) : ∀ acc : ℝ,
    l.foldl (fun a x => a + f x) acc = acc + (l.map f).sum := by
  induction l with
  | nil => intro acc; simp
  | cons x xs ih =>
    intro acc
    rw [List.foldl_cons, ih, List.map_cons, List.sum_cons, add_assoc]

theorem euclid_comm (a b : ℝ × ℝ) : euclid a b = euclid b a := by
  simp only [euclid]
  congr 1
  ring

theorem totalDist_eq_consecutiveSum (history : List (ℝ × ℝ)) :
    totalDist realMath history = consecutiveSum history := by
  simp only [totalDist, pointDistance_eq_euclid, consecutiveSum]
  rw [foldl_add_eq_sum (fun pp : (ℝ × ℝ) × (ℝ × ℝ) => euclid pp.2 pp.1), zero_add]
  congr 1
  apply List.map_congr_left
  intro pp _
  exact euclid_comm _ _

theorem floor_half_error (y : ℝ) : |((⌊y + 1 / 2⌋ : ℤ) : ℝ) - y| ≤ 1 / 2 := by
  have h1 := Int.floor_le (y + 1 / 2)
  have h2 := Int.lt_floor_add_one (y + 1 / 2)
  rw [abs_le]
  constructor <;> linarith

theorem toFixed_error (x : ℝ) (f : ℕ) : |toFixed x f - x| ≤ 1 / 2 / 10 ^ f := by
  have hp : (0 : ℝ) < 10 ^ f := by positivity
  unfold toFixed
  split_ifs with hx
  · have h := floor_half_error (-x * 10 ^ f)
    have he : -((⌊-x * 10 ^ f + 1 / 2⌋ : ℤ) : ℝ) / 10 ^ f - x =
        -((((⌊-x * 10 ^ f + 1 / 2⌋ : ℤ) : ℝ) - -x * 10 ^ f) / 10 ^ f) := by
      field_simp
      ring
    rw [he, abs_neg, abs_div, abs_of_pos hp]
    exact div_le_div_of_nonneg_right h hp.le
  · have h := floor_half_error (x * 10 ^ f)
    have he : ((⌊x * 10 ^ f + 1 / 2⌋ : ℤ) : ℝ) / 10 ^ f - x =
        (((⌊x * 10 ^ f + 1 / 2⌋ : ℤ) : ℝ) - x * 10 ^ f) / 10 ^ f := by
      field_simp
      ring
    rw [he, abs_div, abs_of_pos hp]
    exact div_le_div_of_nonneg_right h hp.le

theorem toFixed_zero (f : ℕ) : toFixed (0 : ℝ) f = 0 := by
  have h : ⌊(1 / 2 : ℝ)⌋ = 0 := by
    rw [Int.floor_eq_iff]; norm_num
  rw [toFixed, if_neg (lt_irrefl 0), zero_mul, zero_add, h]
  simp

theorem consecutiveSum_short (history : List (ℝ × ℝ)) (h : history.length < 2) :
    consecutiveSum history = 0 := by
  match history, h with
  | [], _ => simp [consecutiveSum]
  | [a], _ => simp [consecutiveSum]

theorem shortHistory_sum : consecutiveSum (shortHistory : List (ℝ × ℝ)) = 0.0002 := by
  have h : ((18.94 : ℝ) - 18.9402) ^ 2 + ((72.83 : ℝ) - 72.83) ^ 2 = 0.0002 ^ 2 := by norm_num
  simp only [consecutiveSum, shortHistory, List.tail_cons, List.zip_cons_cons, List.zip_nil_right,
    List.map_cons, List.map_nil, List.sum_cons, List.sum_nil, add_zero, euclid]
  rw [h, Real.sqrt_sq (by norm_num)]

theorem shortHistory_distance : (computeStats realMath shortHistory).distance = 0.02 := by
  have hf : ⌊(23 / 10 : ℝ)⌋ = 2 := by
    rw [Int.floor_eq_iff]; norm_num
  show toFixed (totalDist realMath shortHistory * 60 * 1.5) 2 = 0.02
  rw [totalDist_eq_consecutiveSum, shortHistory_sum]
  have hx : (0.0002 : ℝ) * 60 * 1.5 * 10 ^ 2 + 1 / 2 = 23 / 10 := by norm_num
  have hn : ¬ (0.0002 : ℝ) * 60 * 1.5 < 0 := by norm_num
  rw [toFixed, if_neg hn, hx, hf]
  norm_num

/-- C15, counterexample. For the history of two points `0.0002` degrees apart the sum of the
distances times `60` times `1.5` is `0.018`, and the reported distance is `0.02`. -/
theorem mission_distance_counterexample :
    consecutiveSum (shortHistory : List (ℝ × ℝ)) * 60 * 1.5 = 0.018 ∧
      (computeStats realMath shortHistory).distance = 0.02 ∧
      (computeStats realMath shortHistory).distance ≠
        consecutiveSum (shortHistory : List (ℝ × ℝ)) * 60 * 1.5 := by
  have h1 : consecutiveSum (shortHistory : List (ℝ × ℝ)) * 60 * 1.5 = 0.018 := by
    rw [shortHistory_sum]; norm_num
  refine ⟨h1, shortHistory_distance, ?_⟩
  rw [h1, shortHistory_distance]
  norm_num

/-- C15, amended. Mission distance: for every full path history, the distance reported in the
mission statistics is the sum of the Euclidean distances between consecutive history points
times `60` times `1.5`, rounded by `toFixed(2)` to two decimals, so it differs from that
product by at most `0.005`; for a history with fewer than two points it is `0`. -/
theorem mission_distance_rounded (history : List (ℝ × ℝ)) :
    (computeStats realMath history).distance = toFixed (consecutiveSum history * 60 * 1.5) 2 ∧
      |(computeStats realMath history).distance - consecutiveSum history * 60 * 1.5| ≤ 0.005 ∧
      (history.length < 2 → (computeStats realMath history).distance = 0) := by
  have hd : (computeStats realMath history).distance =
      toFixed (consecutiveSum history * 60 * 1.5) 2 := by
    show toFixed (totalDist realMath history * 60 * 1.5) 2 = _
    rw [totalDist_eq_consecutiveSum]
  refine ⟨hd, ?_, ?_⟩
  · rw [hd]
    have h := toFixed_error (consecutiveSum history * 60 * 1.5) 2
    norm_num at h ⊢
    exact h
  · intro hlen
    rw [hd, consecutiveSum_short history hlen]
    simp [toFixed_zero]

/-- C16, counterexample. For the history of two points `0.0002` degrees apart the reported
distance is `0.02`, the distance times `15.2` is `0.304`, and the reported fuel is `0.3`. -/
theorem mission_fuel_counterexample :
    (computeStats realMath shortHistory).distance * 15.2 = 0.304 ∧
      (computeStats realMath shortHistory).fuel = 0.3 ∧
      (computeStats realMath shortHistory).fuel ≠
        (computeStats realMath shortHistory).distance * 15.2 := by
  have hf : ⌊(177 / 50 : ℝ)⌋ = 3 := by
    rw [Int.floor_eq_iff]; norm_num
  have h1 : (computeStats realMath shortHistory).distance * 15.2 = 0.304 := by
    rw [shortHistory_distance]; norm_num
  have h2 : (computeStats realMath shortHistory).fuel = 0.3 := by
    show toFixed ((computeStats realMath shortHistory).distance * 15.2) 1 = 0.3
    rw [h1]
    have hx : (0.304 : ℝ) * 10 ^ 1 + 1 / 2 = 177 / 50 := by norm_num
    have hn : ¬ (0.304 : ℝ) < 0 := by norm_num
    rw [toFixed, if_neg hn, hx, hf]
    norm_num
  refine ⟨h1, h2, ?_⟩
  rw [h1, h2]
  norm_num

/-- C16, amended. Mission fuel: for every full path history, the fuel reported in the mission
statistics is the reported distance times `15.2`, rounded by `toFixed(1)` to one decimal, so
it differs from that product by at most `0.05`. -/
theorem mission_fuel_rounded (history : List (ℝ × ℝ)) :
    (computeStats realMath history).fuel =
        toFixed ((computeStats realMath history).distance * 15.2) 1 ∧
      |(computeStats realMath history).fuel - (computeStats realMath history).distance * 15.2| ≤
        0.05 := by
  have hd : (computeStats realMath history).fuel =
      toFixed ((computeStats realMath history).distance * 15.2) 1 := rfl
  refine ⟨hd, ?_⟩
  rw [hd]
  have h := toFixed_error ((computeStats realMath history).distance * 15.2) 1
  norm_num at h ⊢
  exact h

/-! ### Station keeping -/

theorem tick_station_position (env : TickEnv ℝ) (s : SimState ℝ)
    (htrack : s.isTracking = true) (ht : s.targetPos = none) :
    (tick realMath env s).position =
      (s.anchorPos.1 + Real.sin (env.now / 2000) * 0.0002 * 0.5,
       s.anchorPos.2 + Real.sin (env.now / 2000 * 2) * 0.0002) := by
  rw [tick, if_pos htrack, tickBody]
  simp only [ht]
  rfl

/-- C17. Station-keeping coordinate bound: in a tick without active target the new latitude
is the anchor latitude plus `sin(t) * 0.0002 * 0.5` and the new longitude is the anchor
longitude plus `sin(2t) * 0.0002`, where `t` is the clock divided by `2000`; both stay within
`0.0002` of the anchor coordinates. -/
theorem station_coordinate_bound (env : TickEnv ℝ) (s : SimState ℝ)
    (htrack : s.isTracking = true) (ht : s.targetPos = none) :
    (tick realMath env s).position.1 - s.anchorPos.1 =
        Real.sin (env.now / 2000) * 0.0002 * 0.5 ∧
      (tick realMath env s).position.2 - s.anchorPos.2 =
        Real.sin (env.now / 2000 * 2) * 0.0002 ∧
      |(tick realMath env s).position.1 - s.anchorPos.1| ≤ 0.0002 ∧
      |(tick realMath env s).position.2 - s.anchorPos.2| ≤ 0.0002 := by
  rw [tick_station_position env s htrack ht]
  have h1 : s.anchorPos.1 + Real.sin (env.now / 2000) * 0.0002 * 0.5 - s.anchorPos.1 =
      Real.sin (env.now / 2000) * 0.0002 * 0.5 := by ring
  have h2 : s.anchorPos.2 + Real.sin (env.now / 2000 * 2) * 0.0002 - s.anchorPos.2 =
      Real.sin (env.now / 2000 * 2) * 0.0002 := by ring
  have ha := abs_le.mp (Real.abs_sin_le_one (env.now / 2000))
  have hb := abs_le.mp (Real.abs_sin_le_one (env.now / 2000 * 2))
  refine ⟨h1, h2, ?_, ?_⟩
  · show |s.anchorPos.1 + Real.sin (env.now / 2000) * 0.0002 * 0.5 - s.anchorPos.1| ≤ 0.0002
    rw [h1, abs_le]
    constructor <;> linarith [ha.1, ha.2]
  · show |s.anchorPos.2 + Real.sin (env.now / 2000 * 2) * 0.0002 - s.anchorPos.2| ≤ 0.0002
    rw [h2, abs_le]
    constructor <;> linarith [hb.1, hb.2]

/-- Witness of C17: station keeping at the initial anchor position with the clock at `1000`
milliseconds. -/
theorem station_coordinate_bound_witness :
    (tick realMath ⟨1000, 45⟩ stationState).position.1 - (stationState : SimState ℝ).anchorPos.1 =
        Real.sin (1000 / 2000) * 0.0002 * 0.5 ∧
      (tick realMath ⟨1000, 45⟩ stationState).position.2 -
          (stationState : SimState ℝ).anchorPos.2 =
        Real.sin (1000 / 2000 * 2) * 0.0002 ∧
      |(tick realMath ⟨1000, 45⟩ stationState).position.1 -
          (stationState : SimState ℝ).anchorPos.1| ≤ 0.0002 ∧
      |(tick realMath ⟨1000, 45⟩ stationState).position.2 -
          (stationState : SimState ℝ).anchorPos.2| ≤ 0.0002 :=
  station_coordinate_bound ⟨1000, 45⟩ stationState rfl rfl

theorem station_offset_sq (env : TickEnv ℝ) (s : SimState ℝ)
    (htrack : s.isTracking = true) (ht : s.targetPos = none) :
    euclid (tick realMath env s).position s.anchorPos =
      Real.sqrt ((Real.sin (env.now / 2000) * 0.0002 * 0.5) ^ 2 +
        (Real.sin (env.now / 2000 * 2) * 0.0002) ^ 2) := by
  rw [tick_station_position env s htrack ht]
  simp only [euclid]
  congr 1
  ring

/-- C18, counterexample. With the clock at `500 π` milliseconds the time parameter is `π / 4`:
the latitude offset is `sin(π / 4) * 0.0001` and the longitude offset is `sin(π / 2) * 0.0002
= 0.0002`, so the Euclidean distance from the anchor position exceeds `0.0002`. -/
theorem station_radius_counterexample :
    (stationState : SimState ℝ).isTracking = true ∧
      (stationState : SimState ℝ).targetPos = none ∧
      0.0002 < euclid (tick realMath ⟨500 * Real.pi, 45⟩ stationState).position
        (stationState : SimState ℝ).anchorPos ∧
      ¬ euclid (tick realMath ⟨500 * Real.pi, 45⟩ stationState).position
        (stationState : SimState ℝ).anchorPos ≤ 0.0002 := by
  have h4 : (500 * Real.pi / 2000 : ℝ) = Real.pi / 4 := by ring
  have h2 : (Real.pi / 4 * 2 : ℝ) = Real.pi / 2 := by ring
  have hlt : 0.0002 < euclid (tick realMath ⟨500 * Real.pi, 45⟩ stationState).position
      (stationState : SimState ℝ).anchorPos := by
    rw [station_offset_sq _ _ rfl rfl]
    show (0.0002 : ℝ) < Real.sqrt ((Real.sin (500 * Real.pi / 2000) * 0.0002 * 0.5) ^ 2 +
      (Real.sin (500 * Real.pi / 2000 * 2) * 0.0002) ^ 2)
    rw [h4, h2, Real.sin_pi_div_four, Real.sin_pi_div_two, Real.lt_sqrt (by norm_num)]
    have hs : (0 : ℝ) < Real.sqrt 2 := Real.sqrt_pos.mpr (by norm_num)
    have hpos : (0 : ℝ) < (Real.sqrt 2 / 2 * 0.0002 * 0.5) ^ 2 := by positivity
    linarith
  exact ⟨rfl, rfl, hlt, not_le.mpr hlt⟩

/-- C18, amended. Station-keeping drift: in a tick without active target the Euclidean
distance between the new position and the anchor position is at most `0.0002125`, which is
`17 / 16` of the drift radius `0.0002`. -/
theorem station_radius_bound (env : TickEnv ℝ) (s : SimState ℝ)
    (htrack : s.isTracking = true) (ht : s.targetPos = none) :
    euclid (tick realMath env s).position s.anchorPos ≤ 0.0002125 := by
  rw [station_offset_sq env s htrack ht, Real.sqrt_le_iff]
  refine ⟨by norm_num, ?_⟩
  set a := Real.sin (env.now / 2000) with ha
  set b := Real.cos (env.now / 2000) with hb
  have hab : a ^ 2 + b ^ 2 = 1 := Real.sin_sq_add_cos_sq _
  have h2 : Real.sin (env.now / 2000 * 2) = 2 * a * b := by
    rw [mul_comm, Real.sin_two_mul]
  have hb2 : b ^ 2 = 1 - a ^ 2 := by linarith
  have hE : (a * 0.0002 * 0.5) ^ 2 + (2 * a * b * 0.0002) ^ 2 =
      0.00000001 * (a ^ 2 + 16 * a ^ 2 * (1 - a ^ 2)) := by
    rw [← hb2]; ring
  rw [h2, hE]
  nlinarith [sq_nonneg (4 * a ^ 2 - 17 / 8)]

/-- Witness of C18 (amended) at the clock value of the counterexample. -/
theorem station_radius_bound_witness :
    euclid (tick realMath ⟨500 * Real.pi, 45⟩ stationState).position
      (stationState : SimState ℝ).anchorPos ≤ 0.0002125 :=
  station_radius_bound ⟨500 * Real.pi, 45⟩ stationState rfl rfl

theorem station_radius_attained :
    euclid (tick realMath ⟨2000 * Real.arcsin (Real.sqrt (17 / 32)), 45⟩ stationState).position
      (stationState : SimState ℝ).anchorPos = 0.0002125 := by
  have hx0 : (0 : ℝ) ≤ Real.sqrt (17 / 32) := Real.sqrt_nonneg _
  have hx1 : Real.sqrt (17 / 32) ≤ 1 := by
    rw [Real.sqrt_le_iff]; norm_num
  have ht : (2000 * Real.arcsin (Real.sqrt (17 / 32)) / 2000 : ℝ) =
      Real.arcsin (Real.sqrt (17 / 32)) := by ring
  rw [station_offset_sq _ _ rfl rfl]
  show Real.sqrt ((Real.sin (2000 * Real.arcsin (Real.sqrt (17 / 32)) / 2000) * 0.0002 * 0.5) ^ 2 +
    (Real.sin (2000 * Real.arcsin (Real.sqrt (17 / 32)) / 2000 * 2) * 0.0002) ^ 2) = 0.0002125
  rw [ht]
  set t := Real.arcsin (Real.sqrt (17 / 32)) with htdef
  have ha : Real.sin t = Real.sqrt (17 / 32) := Real.sin_arcsin (by linarith) hx1
  have ha2 : Real.sin t ^ 2 = 17 / 32 := by
    rw [ha, Real.sq_sqrt (by norm_num)]
  have hb2 : Real.cos t ^ 2 = 15 / 32 := by
    have := Real.sin_sq_add_cos_sq t
    linarith
  have h2 : Real.sin (t * 2) = 2 * Real.sin t * Real.cos t := by
    rw [mul_comm, Real.sin_two_mul]
  have hE : (Real.sin t * 0.0002 * 0.5) ^ 2 + (2 * Real.sin t * Real.cos t * 0.0002) ^ 2 =
      0.0002125 ^ 2 := by
    have : (Real.sin t * 0.0002 * 0.5) ^ 2 + (2 * Real.sin t * Real.cos t * 0.0002) ^ 2 =
        0.00000001 * Real.sin t ^ 2 + 0.00000016 * (Real.sin t ^ 2 * Real.cos t ^ 2) := by ring
    rw [this, ha2, hb2]
    norm_num
  rw [h2, hE, Real.sqrt_sq (by norm_num)]

/-! ### The compass label -/

theorem normalizedAngle_mod (h : ℝ) :
    (0 ≤ normalizedAngle h ∧ normalizedAngle h < 360) ∧
      ∃ k : ℤ, normalizedAngle h = h - 360 * k := by
  obtain ⟨k, hk⟩ := jsRem_360_congr h
  unfold normalizedAngle
  simp only
  split_ifs with hneg
  · have hh : h < 0 := by
      by_contra hc
      exact absurd (jsRem_360_nonneg h (not_lt.mp hc)).1 (not_le.mpr hneg)
    have hr := jsRem_360_neg h hh
    refine ⟨⟨by linarith [hr.1], by linarith⟩, k - 1, ?_⟩
    rw [hk]
    push_cast
    ring
  · refine ⟨⟨not_lt.mp hneg, ?_⟩, k, hk⟩
    by_cases hh : 0 ≤ h
    · exact (jsRem_360_nonneg h hh).2
    · have hr := jsRem_360_neg h (not_le.mp hh)
      linarith [hr.2]

theorem normalizedAngle_eq_wrap360 (h : ℝ) : normalizedAngle h = wrap360 h := by
  obtain ⟨⟨h0, h1⟩, k, hk⟩ := normalizedAngle_mod h
  have hfloor : ⌊h / 360⌋ = k := by
    rw [Int.floor_eq_iff, le_div_iff₀ (by norm_num), div_lt_iff₀ (by norm_num)]
    rw [hk] at h0 h1
    constructor <;> linarith
  rw [wrap360, hfloor, hk]

theorem round_wrap_range (h : ℝ) : 0 ≤ round (wrap360 h / 45) ∧ round (wrap360 h / 45) ≤ 8 := by
  obtain ⟨⟨h0, h1⟩, -⟩ := normalizedAngle_mod h
  rw [normalizedAngle_eq_wrap360] at h0 h1
  rw [round_eq]
  constructor
  · rw [Int.floor_nonneg]
    have : 0 ≤ wrap360 h / 45 := by positivity
    linarith
  · rw [Int.floor_le_iff]
    have : wrap360 h / 45 < 8 := by
      rw [div_lt_iff₀ (by norm_num)]; linarith
    push_cast
    linarith

theorem compassIndex_eq (h : ℝ) : compassIndex h = round (wrap360 h / 45) % 8 := by
  unfold compassIndex jsRound
  rw [normalizedAngle_eq_wrap360, ← round_eq]
  exact Int.tmod_eq_emod (round_wrap_range h).1 (by norm_num)

theorem compassIndex_range (h : ℝ) : 0 ≤ compassIndex h ∧ compassIndex h < 8 := by
  rw [compassIndex_eq]
  exact ⟨Int.emod_nonneg _ (by norm_num), Int.emod_lt_of_pos _ (by norm_num)⟩

theorem getCompassDirection_eq (h : ℝ) :
    getCompassDirection h = directions[(round (wrap360 h / 45) % 8).toNat]? := by
  unfold getCompassDirection
  simp only
  rw [if_neg (not_lt.mpr (compassIndex_range h).1), compassIndex_eq]

theorem wrap360_350 : wrap360 350 = 350 := by
  have hf : ⌊(350 / 360 : ℝ)⌋ = 0 := by
    rw [Int.floor_eq_iff]; norm_num
  rw [wrap360, hf]
  norm_num

theorem wrap360_neg_90 : wrap360 (-90) = 270 := by
  have hf : ⌊(-90 / 360 : ℝ)⌋ = -1 := by
    rw [Int.floor_eq_iff]; norm_num
  rw [wrap360, hf]
  norm_num

/-- C19. Compass label: for every heading `h`, with `n` the heading wrapped into `[0, 360)`,
the value normalised by the code is `n`, which lies in `[0, 360)`; the index computed by the
code is `round(n / 45) mod 8`, which lies in `0..7`; `getCompassDirection(h)` is the element
of `[N, NE, E, SE, S, SW, W, NW]` at that index, so a label is returned for every heading;
`350` gives `N` and `-90` gives `W`. -/
theorem compass_label :
    (∀ h : ℝ,
      normalizedAngle h = wrap360 h ∧
        0 ≤ wrap360 h ∧ wrap360 h < 360 ∧
        compassIndex h = round (wrap360 h / 45) % 8 ∧
        0 ≤ compassIndex h ∧ compassIndex h < 8 ∧
        getCompassDirection h = directions[(round (wrap360 h / 45) % 8).toNat]? ∧
        ∃ label, label ∈ directions ∧ getCompassDirection h = some label) ∧
      getCompassDirection (350 : ℝ) = some "N" ∧
      getCompassDirection (-90 : ℝ) = some "W" := by
  refine ⟨?_, ?_, ?_⟩
  · intro h
    obtain ⟨⟨h0, h1⟩, -⟩ := normalizedAngle_mod h
    rw [normalizedAngle_eq_wrap360] at h0 h1
    have hr := compassIndex_range h
    refine ⟨normalizedAngle_eq_wrap360 h, h0, h1, compassIndex_eq h, hr.1, hr.2,
      getCompassDirection_eq h, ?_⟩
    rw [compassIndex_eq] at hr
    have hlt : (round (wrap360 h / 45) % 8).toNat < directions.length := by
      have : directions.length = 8 := rfl
      omega
    refine ⟨directions[(round (wrap360 h / 45) % 8).toNat], List.getElem_mem _, ?_⟩
    rw [getCompassDirection_eq, List.getElem?_eq_getElem hlt]
  · have hr : round ((350 : ℝ) / 45) = 8 := by
      rw [round_eq, Int.floor_eq_iff]; norm_num
    rw [getCompassDirection_eq, wrap360_350, hr]
    decide
  · have hr : round ((270 : ℝ) / 45) = 6 := by
      rw [round_eq, Int.floor_eq_iff]; norm_num
    rw [getCompassDirection_eq, wrap360_neg_90, hr]
    decide

/-! ### De-duplication and truncation of the wake trail -/

theorem sliceLast_eq_mostRecent {α : Type} (n : ℕ) (xs : List α) :
    sliceLast n xs = mostRecent n xs := by
  rw [sliceLast, mostRecent, List.take_reverse, List.reverse_reverse]

theorem mostRecent_of_length_le {α : Type} (n : ℕ) (xs : List α) (h : xs.length ≤ n) :
    mostRecent n xs = xs := by
  rw [mostRecent, List.take_of_length_le (by simpa using h), List.reverse_reverse]

theorem mostRecent_getLast? {α : Type} (n : ℕ) (xs : List α) (hn : 0 < n) :
    (mostRecent n xs).getLast? = xs.getLast? := by
  rw [← sliceLast_eq_mostRecent, sliceLast, List.getLast?_drop]
  split_ifs with h
  · have h0 : xs.length = 0 := by omega
    rw [List.length_eq_zero.mp h0]
    rfl
  · rfl

theorem movingPathUpdate_trail (newPos : ℝ × ℝ) (prev history : List (ℝ × ℝ)) :
    (movingPathUpdate realMath newPos prev history).1 =
      if 0.0001 < euclid newPos (prev.getLast?.getD newPos) then
        mostRecent 150 (prev ++ [newPos])
      else prev := by
  simp only [movingPathUpdate, pointDistance_eq_euclid]
  split_ifs with h1 h2
  · rw [sliceLast_eq_mostRecent]
  · rw [mostRecent_of_length_le _ _ (not_lt.mp h2)]
  · rfl

/-- C20. Wake de-duplication and truncation: in a tick with an active target and a non-empty
wake trail, when the new position lies more than `0.0001` from the last point of the trail the
new trail consists of the most recent `150` points of the old trail followed by the new
position, and its last element is the new position; otherwise the trail is unchanged. -/
theorem wake_dedup_truncate (env : TickEnv ℝ) (s : SimState ℝ) (q : LatLng ℝ) (last : ℝ × ℝ)
    (htrack : s.isTracking = true) (ht : s.targetPos = some q)
    (hl : s.path.getLast? = some last) :
    (0.0001 < euclid (tick realMath env s).position last →
        (tick realMath env s).path =
            mostRecent 150 (s.path ++ [(tick realMath env s).position]) ∧
          (tick realMath env s).path.getLast? = some (tick realMath env s).position) ∧
      (¬ 0.0001 < euclid (tick realMath env s).position last →
        (tick realMath env s).path = s.path) := by
  have h := (tick_path_update env s q htrack ht).1
  rw [movingPathUpdate_trail, hl, Option.getD_some] at h
  constructor
  · intro hd
    rw [if_pos hd] at h
    refine ⟨h, ?_⟩
    rw [h, mostRecent_getLast? 150 _ (by norm_num), List.getLast?_concat]
  · intro hd
    rw [if_neg hd] at h
    exact h

theorem scenario_first_step :
    euclid (tick realMath ⟨0, 0⟩ scenarioState).position (18.94, 72.83) = 0.0002 := by
  have hE : euclid (LatLng.toPos ⟨18.95, 72.84⟩) (scenarioState : SimState ℝ).position =
      Real.sqrt (((18.95 : ℝ) - 18.94) * (18.95 - 18.94) + (72.84 - 72.83) * (72.84 - 72.83)) := by
    rw [← targetDistance_eq_euclid]; rfl
  have hdpos : 0 < euclid (LatLng.toPos ⟨18.95, 72.84⟩) (scenarioState : SimState ℝ).position :=
    lt_of_lt_of_le (by norm_num) scenario_distance
  rw [tick_transit_position ⟨0, 0⟩ scenarioState ⟨18.95, 72.84⟩ rfl rfl scenario_distance]
  set d := euclid (LatLng.toPos ⟨18.95, 72.84⟩) (scenarioState : SimState ℝ).position with hd
  show euclid ((18.94 : ℝ) + (18.95 - 18.94) / d * 0.0002, (72.83 : ℝ) + (72.84 - 72.83) / d * 0.0002)
    (18.94, 72.83) = 0.0002
  simp only [euclid]
  have h1 : ∀ a b : ℝ, a + b / d * 0.0002 - a = b * (0.0002 / d) := by intro a b; ring
  rw [h1, h1, sqrt_sq_add_sq_scale _ _ _ (by positivity), ← hE]
  field_simp

/-- Witness of C20 on the scenario of the specification: the trail holds the initial position,
the first step moves `0.0002` away from it, and the new position is appended. -/
theorem wake_dedup_truncate_witness :
    (tick realMath ⟨0, 0⟩ scenarioState).path =
        mostRecent 150 ((scenarioState : SimState ℝ).path ++
          [(tick realMath ⟨0, 0⟩ scenarioState).position]) ∧
      (tick realMath ⟨0, 0⟩ scenarioState).path.getLast? =
        some (tick realMath ⟨0, 0⟩ scenarioState).position :=
  (wake_dedup_truncate ⟨0, 0⟩ scenarioState ⟨18.95, 72.84⟩ (18.94, 72.83) rfl rfl rfl).1
    (by rw [scenario_first_step]; norm_num)

/-! ### Wake dissipation and the empty trail -/

theorem tick_station_paths (env : TickEnv ℝ) (s : SimState ℝ)
    (htrack : s.isTracking = true) (ht : s.targetPos = none) :
    (tick realMath env s).path = stoppedPathUpdate s.path ∧
      (tick realMath env s).pathHistory = s.pathHistory := by
  rw [tick, if_pos htrack, tickBody]
  simp only [ht]
  constructor <;> first | rfl | trivial

theorem stoppedPathUpdate_eq_tail (prev : List (ℝ × ℝ)) : stoppedPathUpdate prev = prev.tail := by
  cases prev with
  | nil => rfl
  | cons a rest => simp [stoppedPathUpdate]

/-- C21. Wake dissipation: in a tick without active target a non-empty wake trail loses
exactly its first point and keeps the rest in order, an empty trail stays empty, and the full
path history is unchanged. -/
theorem wake_dissipation (env : TickEnv ℝ) (s : SimState ℝ)
    (htrack : s.isTracking = true) (ht : s.targetPos = none) :
    (∀ oldest rest, s.path = oldest :: rest → (tick realMath env s).path = rest) ∧
      (s.path = [] → (tick realMath env s).path = []) ∧
      (tick realMath env s).pathHistory = s.pathHistory := by
  obtain ⟨hp, hh⟩ := tick_station_paths env s htrack ht
  rw [stoppedPathUpdate_eq_tail] at hp
  refine ⟨?_, ?_, hh⟩
  · intro oldest rest hs
    rw [hp, hs, List.tail_cons]
  · intro hs
    rw [hp, hs, List.tail_nil]

/-- Witness of C21: station keeping with the wake trail of the initial state, whose single
point dissipates. -/
theorem wake_dissipation_witness :
    (tick realMath ⟨1000, 45⟩ stationState).path = [] ∧
      (tick realMath ⟨1000, 45⟩ stationState).pathHistory =
        (stationState : SimState ℝ).pathHistory :=
  ⟨(wake_dissipation ⟨1000, 45⟩ stationState rfl rfl).1 (18.94, 72.83) [] rfl,
    (wake_dissipation ⟨1000, 45⟩ stationState rfl rfl).2.2⟩

theorem tick_empty_trail (env : TickEnv ℝ) (s : SimState ℝ) (hp : s.path = []) :
    (tick realMath env s).path = [] ∧ (tick realMath env s).pathHistory = s.pathHistory := by
  by_cases htrack : s.isTracking = true
  · rcases ht : s.targetPos with _ | q
    · obtain ⟨h1, h2⟩ := tick_station_paths env s htrack ht
      exact ⟨by rw [h1, hp]; rfl, h2⟩
    · obtain ⟨h1, h2⟩ := tick_path_update env s q htrack ht
      rw [movingPathUpdate_trail, hp, List.getLast?_nil, Option.getD_none, euclid_self,
        if_neg (by norm_num)] at h1
      rw [movingPathUpdate_history, hp, List.getLast?_nil, Option.getD_none, euclid_self,
        if_neg (by norm_num)] at h2
      exact ⟨h1, h2⟩
  · rw [tick, if_neg htrack]
    exact ⟨hp, rfl⟩

theorem runTicks_empty_trail (envs : List (TickEnv ℝ)) : ∀ s : SimState ℝ, s.path = [] →
    (runTicks realMath envs s).path = [] ∧
      (runTicks realMath envs s).pathHistory = s.pathHistory := by
  induction envs with
  | nil => intro s hp; exact ⟨hp, rfl⟩
  | cons e es ih =>
    intro s hp
    obtain ⟨h1, h2⟩ := tick_empty_trail e s hp
    obtain ⟨h3, h4⟩ := ih (tick realMath e s) h1
    rw [runTicks_cons]
    exact ⟨h3, h4.trans h2⟩

/-- C22. Empty wake trail never restarts: in a tick with an active target and an empty wake
trail the missing last point defaults to the new position, so the moved distance is `0`, the
trail stays empty and the full path history is unchanged, wherever the vessel moves; hence
after any number of ticks from such a state the trail is still empty, the history is the one
before the leg, and the distance computed from it is the same. -/
theorem empty_trail_never_restarts (env : TickEnv ℝ) (s : SimState ℝ) (q : LatLng ℝ)
    (htrack : s.isTracking = true) (ht : s.targetPos = some q) (hp : s.path = []) :
    pointDistance realMath (tick realMath env s).position
        (s.path.getLast?.getD (tick realMath env s).position) = 0 ∧
      (tick realMath env s).path = [] ∧
      (tick realMath env s).pathHistory = s.pathHistory ∧
      (∀ envs : List (TickEnv ℝ),
        (runTicks realMath envs s).path = [] ∧
          (runTicks realMath envs s).pathHistory = s.pathHistory ∧
          (computeStats realMath (runTicks realMath envs s).pathHistory).distance =
            (computeStats realMath s.pathHistory).distance) := by
  have h0 : pointDistance realMath (tick realMath env s).position
      (s.path.getLast?.getD (tick realMath env s).position) = 0 := by
    rw [hp, List.getLast?_nil, Option.getD_none, pointDistance_eq_euclid, euclid_self]
  obtain ⟨h1, h2⟩ := tick_path_update env s q htrack ht
  rw [movingPathUpdate_trail, hp, List.getLast?_nil, Option.getD_none, euclid_self,
    if_neg (by norm_num)] at h1
  rw [movingPathUpdate_history, hp, List.getLast?_nil, Option.getD_none, euclid_self,
    if_neg (by norm_num)] at h2
  refine ⟨h0, h1, h2, ?_⟩
  intro envs
  obtain ⟨h3, h4⟩ := runTicks_empty_trail envs s hp
  exact ⟨h3, h4, by rw [h4]⟩

/-- Witness of C22: the scenario of the specification with a dissipated wake trail. -/
theorem empty_trail_never_restarts_witness :
    pointDistance realMath (tick realMath ⟨0, 0⟩ emptyTrailState).position
        ((emptyTrailState : SimState ℝ).path.getLast?.getD
          (tick realMath ⟨0, 0⟩ emptyTrailState).position) = 0 ∧
      (tick realMath ⟨0, 0⟩ emptyTrailState).path = [] ∧
      (tick realMath ⟨0, 0⟩ emptyTrailState).pathHistory =
        (emptyTrailState : SimState ℝ).pathHistory ∧
      (∀ envs : List (TickEnv ℝ),
        (runTicks realMath envs emptyTrailState).path = [] ∧
          (runTicks realMath envs emptyTrailState).pathHistory =
            (emptyTrailState : SimState ℝ).pathHistory ∧
          (computeStats realMath (runTicks realMath envs emptyTrailState).pathHistory).distance =
            (computeStats realMath (emptyTrailState : SimState ℝ).pathHistory).distance) :=
  empty_trail_never_restarts ⟨0, 0⟩ emptyTrailState ⟨18.95, 72.84⟩ rfl rfl rfl

/-! ### The guarded division of the ray-casting test -/

theorem guard_exactly_one (y : ℝ) (vi vj : ℝ × ℝ)
    (h : (decide (vi.2 > y) != decide (vj.2 > y)) = true) :
    ((vi.2 > y ∧ ¬ vj.2 > y) ∨ (¬ vi.2 > y ∧ vj.2 > y)) ∧ vj.2 - vi.2 ≠ 0 := by
  have hne : decide (vi.2 > y) ≠ decide (vj.2 > y) := by simpa using h
  have hex : (vi.2 > y ∧ ¬ vj.2 > y) ∨ (¬ vi.2 > y ∧ vj.2 > y) := by
    by_cases h1 : vi.2 > y <;> by_cases h2 : vj.2 > y
    · exact absurd (by simp [h1, h2]) hne
    · exact Or.inl ⟨h1, h2⟩
    · exact Or.inr ⟨h1, h2⟩
    · exact absurd (by simp [h1, h2]) hne
  refine ⟨hex, ?_⟩
  intro h0
  have heq : vj.2 = vi.2 := by linarith
  rw [heq] at hne
  exact hne rfl

theorem edgeIntersectsChecked_eq (x y : ℝ) (vi vj : ℝ × ℝ) :
    edgeIntersectsChecked x y vi vj = some (edgeIntersects x y vi vj) := by
  unfold edgeIntersectsChecked edgeIntersects
  simp only
  split_ifs with hg h0
  · exact absurd h0 (guard_exactly_one y vi vj hg).2
  · rw [hg, Bool.true_and]
  · rw [Bool.not_eq_true] at hg
    rw [hg, Bool.false_and]

theorem checked_fold (x y : ℝ) (vs : List (ℝ × ℝ))
    (f : Option (Bool × ℕ) → ℕ → Option (Bool × ℕ)) (g : Bool × ℕ → ℕ → Bool × ℕ)
    (hf : ∀ st i, f st i =
      st.bind fun st =>
        (vs[i]?).bind fun vi =>
          (vs[st.2]?).bind fun vj =>
            (edgeIntersectsChecked x y vi vj).map fun intersect =>
              (if intersect then !st.1 else st.1, i))
    (hg : ∀ st i, g st i =
      (if edgeIntersects x y (vs.getD i (0, 0)) (vs.getD st.2 (0, 0)) then !st.1 else st.1, i)) :
    ∀ l : List ℕ, (∀ i ∈ l, i < vs.length) → ∀ (inside : Bool) (j : ℕ), j < vs.length →
      l.foldl f (some (inside, j)) = some (l.foldl g (inside, j)) := by
  intro l
  induction l with
  | nil => intro _ inside j _; rfl
  | cons i l ih =>
    intro hl inside j hj
    have hi : i < vs.length := hl i (List.mem_cons_self _ _)
    have hl' : ∀ k ∈ l, k < vs.length := fun k hk => hl k (List.mem_cons_of_mem _ hk)
    have hgi : vs.getD i (0, 0) = vs[i] := by
      rw [List.getD_eq_getElem?_getD, List.getElem?_eq_getElem hi, Option.getD_some]
    have hgj : vs.getD j (0, 0) = vs[j] := by
      rw [List.getD_eq_getElem?_getD, List.getElem?_eq_getElem hj, Option.getD_some]
    have hstep : f (some (inside, j)) i = some (g (inside, j) i) := by
      rw [hf, hg]
      simp only [Option.some_bind, List.getElem?_eq_getElem hi, List.getElem?_eq_getElem hj,
        edgeIntersectsChecked_eq, Option.map_some', hgi, hgj]
    have hsnd : (g (inside, j) i).2 = i := by rw [hg]
    rw [List.foldl_cons, List.foldl_cons, hstep]
    have h := ih hl' (g (inside, j) i).1 (g (inside, j) i).2 (by rw [hsnd]; exact hi)
    exact h

theorem isPointInPolygonChecked_eq (point : ℝ × ℝ) (vs : List (ℝ × ℝ)) :
    isPointInPolygonChecked point vs = some (isPointInPolygon point vs) := by
  unfold isPointInPolygonChecked isPointInPolygon
  simp only
  cases vs with
  | nil => rfl
  | cons v rest =>
    rw [checked_fold point.1 point.2 (v :: rest) _ _ (fun _ _ => rfl) (fun _ _ => rfl)
      (List.range (v :: rest).length) (fun i hi => List.mem_range.mp hi) false
      ((v :: rest).length - 1) (by simp)]
    rfl

/-- C24. Ray-casting division is guarded: the quotient `(xj - xi) * (y - yi) / (yj - yi)` is
evaluated only when exactly one of `yi > y` and `yj > y` holds, and then `yj - yi` is not
zero; so for every point and every polygon the test with checked array accesses and checked
division returns the value of `isPointInPolygon`, never a failure; for the empty polygon the
value is `false`. -/
theorem raycast_division_guarded :
    (∀ (y : ℝ) (vi vj : ℝ × ℝ), (decide (vi.2 > y) != decide (vj.2 > y)) = true →
        ((vi.2 > y ∧ ¬ vj.2 > y) ∨ (¬ vi.2 > y ∧ vj.2 > y)) ∧ vj.2 - vi.2 ≠ 0) ∧
      (∀ (x y : ℝ) (vi vj : ℝ × ℝ),
        edgeIntersectsChecked x y vi vj = some (edgeIntersects x y vi vj)) ∧
      (∀ (point : ℝ × ℝ) (vs : List (ℝ × ℝ)),
        isPointInPolygonChecked point vs = some (isPointInPolygon point vs)) ∧
      (∀ point : ℝ × ℝ, isPointInPolygon point [] = false) := by
  refine ⟨guard_exactly_one, edgeIntersectsChecked_eq, isPointInPolygonChecked_eq, ?_⟩
  intro point
  rfl

/-! ### The zoom of the camera feed -/

theorem handleZoom_range (amount prev : ℝ) :
    1 ≤ handleZoom amount prev ∧ handleZoom amount prev ≤ 3 := by
  unfold handleZoom
  exact ⟨le_max_left _ _, max_le (by norm_num) (min_le_right _ _)⟩

theorem zoom_fold_range (presses : List ZoomPress) : ∀ z : ℝ, 1 ≤ z ∧ z ≤ 3 →
    1 ≤ presses.foldl (fun prev press => handleZoom press.amount prev) z ∧
      presses.foldl (fun prev press => handleZoom press.amount prev) z ≤ 3 := by
  induction presses with
  | nil => intro z hz; exact hz
  | cons p ps ih =>
    intro z _
    rw [List.foldl_cons]
    exact ih _ (handleZoom_range _ _)

/-- C25. Zoom clamp: for every previous zoom level and every amount, `handleZoom` yields
`max(1, min(previous + amount, 3))`, which lies in `[1, 3]`; starting from the initial level
`1`, the zoom level lies in `[1, 3]` after any sequence of zoom-in (`+0.2`) and zoom-out
(`-0.2`) presses. -/
theorem zoom_clamp :
    (∀ prev amount : ℝ,
      handleZoom amount prev = max 1 (min (prev + amount) 3) ∧
        1 ≤ handleZoom amount prev ∧ handleZoom amount prev ≤ 3) ∧
      (initialZoom : ℝ) = 1 ∧
      (ZoomPress.amount ZoomPress.zoomIn : ℝ) = 0.2 ∧
      (ZoomPress.amount ZoomPress.zoomOut : ℝ) = -0.2 ∧
      (∀ presses : List ZoomPress,
        1 ≤ (zoomAfter presses : ℝ) ∧ (zoomAfter presses : ℝ) ≤ 3) := by
  refine ⟨fun prev amount => ⟨rfl, handleZoom_range amount prev⟩, rfl, rfl, rfl, ?_⟩
  intro presses
  unfold zoomAfter
  apply zoom_fold_range
  unfold initialZoom
  norm_num

end SentinelView
